import Mathlib

/-!
# Visibility cursor and render driver of the LiquidRescaling plug-in

A shallow embedding of `src/lqr_cursor.c` (the cursor that walks the visible
records of a raster) and of the control flow of `render` in `src/render.c`,
followed by the properties of the specification that concern them.

Conventions of the embedding

* `gint` values (`x`, `y`, `w`, `h`, `w0`, `h0`, `level`, `vs`) are `Int`.
  No arithmetic on them can overflow under the hypotheses used below
  (`x++` is only reached with `x ≠ w`, and the theorems assume `x ≤ w`).
  The one exception is the product `c->o->w0 * c->o->h0` of the debug
  assertions: it is a product of two `gint` and is computed by `gint_mul`,
  which wraps to 32 bits.
* The grid `c->map` is a `List LqrData`; the pointer `c->now` is kept as the
  offset `c->now - c->map`, an `Int` (it can leave the grid on either side).
* Dereferencing an offset outside the grid is undefined behaviour in C; the
  embedding reports it as `Outcome.outOfBounds`.
* The `#ifdef __LQR_DEBUG__` blocks are kept: every operation takes a flag
  `dbg` that says whether the macro is defined; a failed `assert` is
  `Outcome.assertFail`.
-/

namespace Lqr

/-! ## Data model -/

/-- Pixel record. Only the visibility stamp `vs` is read by the cursor; the
other members of the C struct (declared in `lqr_data.h`) play no role. -/
structure LqrData where
  vs : Int
  deriving DecidableEq, Repr

/-- The members of the owning raster (`c->o`) that the cursor reads. -/
structure LqrRaster where
  w : Int
  h : Int
  w0 : Int
  h0 : Int
  level : Int
  deriving DecidableEq, Repr

/-- The cursor: logical coordinates, owner, grid and current position
(`now`, as an offset into `map`). The member `initialized` only exists in
debug builds, where `lqr_cursor_create` sets it to 1. -/
structure LqrCursor where
  x : Int
  y : Int
  o : LqrRaster
  map : List LqrData
  now : Int
  initialized : Bool
  deriving DecidableEq, Repr

/-- The three kinds of `assert` in the cursor code. -/
inductive Assertion where
  | initialized
  | bounds
  | xrange
  deriving DecidableEq, Repr

/-- Result of running a piece of C code. -/
inductive Outcome (α : Type) where
  | ok (a : α)
  | assertFail (which : Assertion)
  | outOfBounds
  deriving DecidableEq, Repr

/-- The loop condition `(vs != 0) && (vs < level)`: the record is skipped. -/
def skipped (level : Int) (d : LqrData) : Bool :=
  (d.vs != 0) && decide (d.vs < level)

/-- The visibility predicate of the specification: `vs == 0 OR vs ≥ level`. -/
def visible (level : Int) (d : LqrData) : Bool :=
  (d.vs == 0) || decide (level ≤ d.vs)

/-! ## The skip loops -/

/-- The forward loop
`while ((p->vs != 0) && (p->vs < level)) { p++; assert (p - map < bound); }`
shared by `lqr_cursor_reset` (`bound = w0`), `lqr_cursor_next` and
`lqr_cursor_right` (`bound = w0 * h0`). -/
def skip_forward (dbg : Bool) (bound level : Int) (map : List LqrData) (p : Int) :
    Outcome Int :=
  if h : 0 ≤ p ∧ p.toNat < map.length then
    if skipped level (map[p.toNat]) then
      if dbg && !decide (p + 1 < bound) then .assertFail .bounds
      else skip_forward dbg bound level map (p + 1)
    else .ok p
  else .outOfBounds
termination_by map.length - p.toNat
decreasing_by omega

/-- The backward loop
`while ((p->vs != 0) && (p->vs < level)) { p--; assert (p - map >= 0); }`
shared by `lqr_cursor_prev` and `lqr_cursor_left`. -/
def skip_backward (dbg : Bool) (level : Int) (map : List LqrData) (p : Int) :
    Outcome Int :=
  if h : 0 ≤ p ∧ p.toNat < map.length then
    if skipped level (map[p.toNat]) then
      if dbg && !decide (0 ≤ p - 1) then .assertFail .bounds
      else skip_backward dbg level map (p - 1)
    else .ok p
  else .outOfBounds
termination_by (p + 1).toNat
decreasing_by omega

/-! ## Cursor operations -/

namespace Outcome

/-- Continue with `f` on the value of a successful outcome. -/
def map {α β : Type} (f : α → β) : Outcome α → Outcome β
  | .ok a => .ok (f a)
  | .assertFail w => .assertFail w
  | .outOfBounds => .outOfBounds

/-- Sequence two steps; a failure of the first is a failure of both. -/
def bind {α β : Type} (o : Outcome α) (f : α → Outcome β) : Outcome β :=
  match o with
  | .ok a => f a
  | .assertFail w => .assertFail w
  | .outOfBounds => .outOfBounds

end Outcome

/-- Reduction of an integer to the range of a `gint` (32 bits, two's
complement). -/
def gint_wrap (n : Int) : Int :=
  (n + 2147483648) % 4294967296 - 2147483648

/-- The product of two `gint` as the machine computes it: the low 32 bits of
the exact product. It is the bound `c->o->w0 * c->o->h0` of the debug
assertions. -/
def gint_mul (a b : Int) : Int :=
  gint_wrap (a * b)

/-- The code shared by `lqr_cursor_next` and `lqr_cursor_right` after the
coordinates are dealt with: the first move `p++`, its assertion
`assert (p - map < bound)`, and the forward skip loop. -/
def walk_forward (dbg : Bool) (bound level : Int) (map : List LqrData) (p : Int) :
    Outcome Int :=
  if dbg && !decide (p + 1 < bound) then .assertFail .bounds
  else skip_forward dbg bound level map (p + 1)

/-- The code shared by `lqr_cursor_prev` and `lqr_cursor_left`: the first
move `p--`, its assertion `assert (p - map >= 0)`, and the backward skip
loop. -/
def walk_backward (dbg : Bool) (level : Int) (map : List LqrData) (p : Int) :
    Outcome Int :=
  if dbg && !decide (0 ≤ p - 1) then .assertFail .bounds
  else skip_backward dbg level map (p - 1)

/-- Embedding of `lqr_cursor_reset`: go to logical (1,1) and to the first
record that is not skipped. -/
def lqr_cursor_reset (dbg : Bool) (c : LqrCursor) : Outcome LqrCursor :=
  if dbg && !c.initialized then .assertFail .initialized
  else
    (skip_forward dbg c.o.w0 c.o.level c.map 0).map
      (fun p => { c with x := 1, y := 1, now := p })

/-- Embedding of `lqr_cursor_next`: update the coordinates (nothing at all at
`x == w`, `y == h`), then move to the next record that is not skipped. -/
def lqr_cursor_next (dbg : Bool) (c : LqrCursor) : Outcome LqrCursor :=
  if dbg && !c.initialized then .assertFail .initialized
  else if c.x = c.o.w then
    if c.y = c.o.h then .ok c
    else
      (walk_forward dbg (gint_mul c.o.w0 c.o.h0) c.o.level c.map c.now).map
        (fun p => { c with x := 1, y := c.y + 1, now := p })
  else
    (walk_forward dbg (gint_mul c.o.w0 c.o.h0) c.o.level c.map c.now).map
      (fun p => { c with x := c.x + 1, now := p })

/-- Embedding of `lqr_cursor_prev`: update the coordinates (nothing at all at
`x == 1`, `y == 1`), then move to the previous record that is not skipped.
The C function has no `assert (c->initialized)`. -/
def lqr_cursor_prev (dbg : Bool) (c : LqrCursor) : Outcome LqrCursor :=
  if c.x = 1 then
    if c.y = 1 then .ok c
    else
      (walk_backward dbg c.o.level c.map c.now).map
        (fun p => { c with x := c.o.w, y := c.y - 1, now := p })
  else
    (walk_backward dbg c.o.level c.map c.now).map
      (fun p => { c with x := c.x - 1, now := p })

/-- Embedding of `lqr_cursor_right`: the returned pointer (as an offset),
paired with the cursor as the call leaves it. The C function never assigns
through `c`. -/
def lqr_cursor_right (dbg : Bool) (c : LqrCursor) : Outcome (Int × LqrCursor) :=
  if dbg && !c.initialized then .assertFail .initialized
  else if dbg && !decide (c.x < c.o.w) then .assertFail .xrange
  else
    (walk_forward dbg (gint_mul c.o.w0 c.o.h0) c.o.level c.map c.now).map (fun p => (p, c))

/-- Embedding of `lqr_cursor_left`: the returned pointer (as an offset),
paired with the cursor as the call leaves it. -/
def lqr_cursor_left (dbg : Bool) (c : LqrCursor) : Outcome (Int × LqrCursor) :=
  if dbg && !c.initialized then .assertFail .initialized
  else if dbg && !decide (1 < c.x) then .assertFail .xrange
  else
    (walk_backward dbg c.o.level c.map c.now).map (fun p => (p, c))

/-- The cursor after `lqr_cursor_reset` followed by `k` calls of
`lqr_cursor_next`. -/
def traverse (dbg : Bool) (c : LqrCursor) : Nat → Outcome LqrCursor
  | 0 => lqr_cursor_reset dbg c
  | k + 1 => (traverse dbg c k).bind (lqr_cursor_next dbg)

/-! ## Specification vocabulary -/

/-- The record at offset `p` exists and is visible at `level`. -/
def visibleAt (level : Int) (map : List LqrData) (p : Int) : Bool :=
  if h : 0 ≤ p ∧ p.toNat < map.length then visible level (map[p.toNat]) else false

/-- Number of visible records among the first `n` records of the grid. -/
def countVisible (level : Int) (map : List LqrData) : Nat → Nat
  | 0 => 0
  | n + 1 => countVisible level map n + (if visibleAt level map n then 1 else 0)

/-- The cursor invariant of the specification: coordinates inside the
visible image and `now` on a visible record. -/
def Inv (c : LqrCursor) : Prop :=
  1 ≤ c.x ∧ c.x ≤ c.o.w ∧ 1 ≤ c.y ∧ c.y ≤ c.o.h ∧
    visibleAt c.o.level c.map c.now = true

instance (c : LqrCursor) : Decidable (Inv c) := by
  unfold Inv; infer_instance

/-- Record `i` is the `x`-th visible record (counting from 1) of the original
row `r` (counting from 0), rows being `w0` consecutive records. -/
def NthInRow (level : Int) (map : List LqrData) (w0 r x i : Nat) : Prop :=
  r * w0 ≤ i ∧ i < (r + 1) * w0 ∧ visibleAt level map (i : Int) = true ∧
    countVisible level map i + 1 = countVisible level map (r * w0) + x

instance (level : Int) (map : List LqrData) (w0 r x i : Nat) :
    Decidable (NthInRow level map w0 r x i) := by
  unfold NthInRow; infer_instance

/-- Every one of the first `h0` original rows holds exactly `w` visible
records. -/
def RowsHold (level : Int) (map : List LqrData) (w0 h0 w : Nat) : Prop :=
  ∀ r, r < h0 →
    countVisible level map ((r + 1) * w0) = countVisible level map (r * w0) + w

instance (level : Int) (map : List LqrData) (w0 h0 w : Nat) :
    Decidable (RowsHold level map w0 h0 w) := by
  unfold RowsHold; infer_instance

/-- The cursor `c` sits on a grid of `w0 * h0` records in which every
original row holds exactly `w` visible records, and its owner records these
dimensions. -/
structure OnRowGrid (c : LqrCursor) (w0 h0 w : Nat) : Prop where
  w0_eq : c.o.w0 = (w0 : Int)
  h0_eq : c.o.h0 = (h0 : Int)
  w_eq : c.o.w = (w : Int)
  size : c.map.length = w0 * h0
  rows : RowsHold c.o.level c.map w0 h0 w

/-- The grid of `c` has at most `w0 * h0` records, and that product fits in a
`gint`: what the debug assertions of `lqr_cursor_next` and `lqr_cursor_right`
rely on. -/
def GridFits (c : LqrCursor) : Prop :=
  (c.map.length : Int) ≤ c.o.w0 * c.o.h0 ∧ c.o.w0 * c.o.h0 < 2147483648

instance (c : LqrCursor) : Decidable (GridFits c) := by
  unfold GridFits; infer_instance

/-! ## A sample raster for the concrete checks

A 3 x 2 grid from which one vertical seam (stamp 1) has been carved, so that
the raster stands at level 2 with a 2 x 2 visible image. -/

/-- Stamps of the sample grid, row by row: `0 1 0 / 1 0 0`. -/
def sampleMap : List LqrData := [⟨0⟩, ⟨1⟩, ⟨0⟩, ⟨1⟩, ⟨0⟩, ⟨0⟩]

/-- The raster owning `sampleMap`. -/
def sampleRaster : LqrRaster := { w := 2, h := 2, w0 := 3, h0 := 2, level := 2 }

/-- A cursor of the sample raster at logical `(x, y)` and offset `now`. -/
def sampleCursor (x y now : Int) : LqrCursor :=
  { x := x, y := y, o := sampleRaster, map := sampleMap, now := now, initialized := true }

/-! ## `render` (src/render.c)

`render` is a sequence of calls to the host application (GIMP) and to the
resizing engine, with early returns. The embedding runs it against a record
of the answers those calls give, one field per call site, and returns the
result of `render` together with the list of calls made, in order.
`gimp_drawable_get (id)` is taken to yield a drawable whose `drawable_id` is
`id`; `snprintf` and `gimp_rgba_set` only fill local buffers and are left
out; `image_ID` is the same in every call and is not recorded. -/

/-- The members of `PlugInVals` on which the calls of `render` depend. The
remaining ones (`pres_coeff`, `disc_coeff`, `grad_func`, `rigidity`) are only
handed over to `lqr_raster_new`. -/
structure PlugInVals where
  new_width : Int
  new_height : Int
  pres_layer_ID : Int
  disc_layer_ID : Int
  new_layer : Bool
  resize_canvas : Bool
  resize_aux_layers : Bool
  output_seams : Bool
  mask_behavior : Int
  deriving DecidableEq, Repr

/-- The three rasters handed to `lqr_external_writeimage`: `rasta`,
`rasta->pres_raster` and `rasta->disc_raster`. -/
inductive Target where
  | layer
  | pres
  | disc
  deriving DecidableEq, Repr

/-- What the host and the engine answer, one field per call site of
`render`. -/
structure Answers where
  /-- Result of `gimp_image_get_active_layer`. -/
  active_layer : Int
  /-- Result of `gimp_drawable_is_layer (layer_ID)`. -/
  layer_is_layer : Bool
  /-- Result of `gimp_drawable_is_layer (vals->pres_layer_ID)`. -/
  pres_is_layer : Bool
  /-- Result of `gimp_drawable_is_layer (vals->disc_layer_ID)`. -/
  disc_is_layer : Bool
  /-- Result of `gimp_layer_is_floating_sel`. -/
  floating_sel : Bool
  /-- Result of `gimp_selection_is_empty`. -/
  selection_is_empty : Bool
  /-- Result of `gimp_layer_copy`. -/
  layer_copy : Int
  /-- Result of `gimp_layer_get_mask`. -/
  layer_mask : Int
  /-- Offsets, width and height of the drawable. -/
  x_off : Int
  y_off : Int
  old_width : Int
  old_height : Int
  /-- Offsets of the preservation and discard layers. -/
  pres_x_off : Int
  pres_y_off : Int
  disc_x_off : Int
  disc_y_off : Int
  /-- Whether `lqr_raster_new` returned a non-NULL raster. -/
  raster_new : Bool
  /-- Result of `lqr_raster_resize`. -/
  raster_resize : Bool
  /-- Results of the three `lqr_external_writeimage` calls. -/
  write_layer : Bool
  write_pres : Bool
  write_disc : Bool
  deriving DecidableEq, Repr

/-- The answer of `lqr_external_writeimage` for each raster. -/
def Answers.write (a : Answers) : Target → Bool
  | .layer => a.write_layer
  | .pres => a.write_pres
  | .disc => a.write_disc

/-- The texts passed to `g_message`. -/
inductive Message where
  | layer_invalid
  | pres_invalid
  | disc_invalid
  | not_enough_memory
  deriving DecidableEq, Repr

/-- The calls `render` makes. -/
inductive Call where
  | gimp_image_get_active_layer
  | gimp_drawable_is_layer (id : Int)
  | g_message (m : Message)
  | gimp_layer_is_floating_sel (id : Int)
  | gimp_floating_sel_to_layer (id : Int)
  | gimp_drawable_get (id : Int)
  | gimp_drawable_get_name (id : Int)
  | gimp_selection_is_empty
  | gimp_selection_save
  | gimp_selection_none
  | gimp_image_unset_active_channel
  | gimp_image_convert_rgb
  | gimp_layer_copy (id : Int)
  | gimp_image_add_layer (id : Int)
  | gimp_drawable_set_name (id : Int)
  | gimp_drawable_set_visible (id : Int) (visible : Bool)
  | gimp_layer_get_mask (id : Int)
  | gimp_layer_remove_mask (id : Int) (mode : Int)
  | gimp_layer_set_preserve_trans (id : Int)
  | gimp_drawable_offsets (id : Int)
  | gimp_drawable_width (id : Int)
  | gimp_drawable_height (id : Int)
  | gimp_layer_resize (id : Int) (w h xoff yoff : Int)
  | lqr_raster_new (id : Int)
  | lqr_raster_resize (w h : Int)
  | gimp_image_resize (w h : Int)
  | gimp_layer_resize_to_image_size (id : Int)
  | lqr_external_writeimage (t : Target) (id : Int)
  | lqr_raster_destroy
  | gimp_image_set_active_layer (id : Int)
  deriving DecidableEq, Repr

/-- Calls into the resizing engine. -/
def Call.isEngine : Call → Bool
  | .lqr_raster_new _ => true
  | .lqr_raster_resize _ _ => true
  | .lqr_external_writeimage _ _ => true
  | .lqr_raster_destroy => true
  | _ => false

/-- Calls that change the host's image, layers or selection. -/
def Call.mutatesHost : Call → Bool
  | .gimp_floating_sel_to_layer _ => true
  | .gimp_selection_save => true
  | .gimp_selection_none => true
  | .gimp_image_unset_active_channel => true
  | .gimp_image_convert_rgb => true
  | .gimp_layer_copy _ => true
  | .gimp_image_add_layer _ => true
  | .gimp_drawable_set_name _ => true
  | .gimp_drawable_set_visible _ _ => true
  | .gimp_layer_remove_mask _ _ => true
  | .gimp_layer_set_preserve_trans _ => true
  | .gimp_layer_resize _ _ _ _ _ => true
  | .gimp_image_resize _ _ => true
  | .gimp_layer_resize_to_image_size _ => true
  | .lqr_external_writeimage _ _ => true
  | .gimp_image_set_active_layer _ => true
  | _ => false

/-- Lines 97-162 of `render`: everything between the layer checks and the
construction of the raster. Returns the layer that will be resized (the copy,
when `new_layer` is set) and the calls made. -/
def render_prepare (a : Answers) (vals : PlugInVals) (layer_ID : Int) : Int × List Call :=
  let work_ID := if vals.new_layer then a.layer_copy else layer_ID
  (work_ID,
    [.gimp_layer_is_floating_sel layer_ID]
    ++ (if a.floating_sel then [.gimp_floating_sel_to_layer layer_ID] else [])
    ++ [.gimp_drawable_get layer_ID, .gimp_drawable_get_name layer_ID,
        .gimp_selection_is_empty]
    ++ (if !a.selection_is_empty then
          [.gimp_selection_save, .gimp_selection_none, .gimp_image_unset_active_channel]
        else [])
    ++ (if vals.output_seams then [.gimp_image_convert_rgb] else [])
    ++ (if vals.new_layer then
          [.gimp_layer_copy layer_ID, .gimp_image_add_layer a.layer_copy,
           .gimp_drawable_get a.layer_copy, .gimp_drawable_set_name a.layer_copy,
           .gimp_drawable_set_visible a.layer_copy false]
        else [])
    ++ [.gimp_layer_get_mask work_ID]
    ++ (if a.layer_mask ≠ -1 then [.gimp_layer_remove_mask work_ID vals.mask_behavior]
        else [])
    ++ [.gimp_layer_set_preserve_trans work_ID]
    ++ (if vals.resize_aux_layers then
          [.gimp_drawable_offsets work_ID, .gimp_drawable_width work_ID,
           .gimp_drawable_height work_ID]
          ++ (if vals.pres_layer_ID ≠ 0 then
                [.gimp_drawable_offsets vals.pres_layer_ID,
                 .gimp_layer_resize vals.pres_layer_ID a.old_width a.old_height
                   (a.pres_x_off - a.x_off) (a.pres_y_off - a.y_off)]
              else [])
          ++ (if vals.disc_layer_ID ≠ 0 then
                [.gimp_drawable_offsets vals.disc_layer_ID,
                 .gimp_layer_resize vals.disc_layer_ID a.old_width a.old_height
                   (a.disc_x_off - a.x_off) (a.disc_y_off - a.y_off)]
              else [])
        else []))

/-- Lines 199-227 of `render`: writing back the auxiliary layers, then the
final clean-up. `t` holds the calls made so far. -/
def render_finish (a : Answers) (vals : PlugInVals) (work_ID : Int) (t : List Call) :
    Bool × List Call :=
  let x_off := if vals.resize_canvas then a.x_off else 0
  let y_off := if vals.resize_canvas then a.y_off else 0
  let closing : List Call :=
    [.lqr_raster_destroy, .gimp_drawable_set_visible work_ID true,
     .gimp_image_set_active_layer work_ID]
  let t_pres : List Call :=
    if vals.resize_aux_layers && decide (vals.pres_layer_ID ≠ 0) then
      [.gimp_layer_resize vals.pres_layer_ID vals.new_width vals.new_height x_off y_off,
       .gimp_drawable_get vals.pres_layer_ID,
       .lqr_external_writeimage .pres vals.pres_layer_ID]
    else []
  if (vals.resize_aux_layers && decide (vals.pres_layer_ID ≠ 0)) && !a.write_pres then
    (false, t ++ t_pres ++ [.g_message .not_enough_memory])
  else
    let t_disc : List Call :=
      if vals.resize_aux_layers && decide (vals.disc_layer_ID ≠ 0) then
        [.gimp_layer_resize vals.disc_layer_ID vals.new_width vals.new_height x_off y_off,
         .gimp_drawable_get vals.disc_layer_ID,
         .lqr_external_writeimage .disc vals.disc_layer_ID]
      else []
    if (vals.resize_aux_layers && decide (vals.disc_layer_ID ≠ 0)) && !a.write_disc then
      (false, t ++ t_pres ++ t_disc ++ [.g_message .not_enough_memory])
    else
      (true, t ++ t_pres ++ t_disc ++ closing)

/-- Lines 167-197 of `render`: construction of the raster, the resize, and
the write-back of the layer, each guarded by `MEMCHECK`; then `render_finish`.
`t` holds the calls made so far. -/
def render_engine (a : Answers) (vals : PlugInVals) (work_ID : Int) (t : List Call) :
    Bool × List Call :=
  let t3 : List Call := t ++ [.lqr_raster_new work_ID]
  if !a.raster_new then (false, t3 ++ [.g_message .not_enough_memory])
  else
    let t4 : List Call := t3 ++ [.lqr_raster_resize vals.new_width vals.new_height]
    if !a.raster_resize then (false, t4 ++ [.g_message .not_enough_memory])
    else
      let t5 : List Call :=
        t4
        ++ (if vals.resize_canvas then
              [.gimp_image_resize vals.new_width vals.new_height,
               .gimp_layer_resize_to_image_size work_ID]
            else
              [.gimp_layer_resize work_ID vals.new_width vals.new_height 0 0])
        ++ [.gimp_drawable_get work_ID, .lqr_external_writeimage .layer work_ID]
      if !a.write_layer then (false, t5 ++ [.g_message .not_enough_memory])
      else render_finish a vals work_ID t5

/-- Embedding of `render`: the result (`TRUE` / `FALSE`) and the calls made,
in order. `layer_ID_val` is `drawable_vals->layer_ID`. -/
def render (a : Answers) (layer_ID_val : Int) (vals : PlugInVals) : Bool × List Call :=
  let layer_ID := if layer_ID_val ≠ 0 then layer_ID_val else a.active_layer
  let t0 : List Call :=
    (if layer_ID_val ≠ 0 then [] else [.gimp_image_get_active_layer])
    ++ [.gimp_drawable_is_layer layer_ID]
  if !a.layer_is_layer then (false, t0 ++ [.g_message .layer_invalid])
  else
    let t1 : List Call :=
      t0 ++ (if vals.pres_layer_ID ≠ 0 then [.gimp_drawable_is_layer vals.pres_layer_ID]
             else [])
    if decide (vals.pres_layer_ID ≠ 0) && !a.pres_is_layer then
      (false, t1 ++ [.g_message .pres_invalid])
    else
      let t2 : List Call :=
        t1 ++ (if vals.disc_layer_ID ≠ 0 then [.gimp_drawable_is_layer vals.disc_layer_ID]
               else [])
      if decide (vals.disc_layer_ID ≠ 0) && !a.disc_is_layer then
        (false, t2 ++ [.g_message .disc_invalid])
      else
        render_engine a vals (render_prepare a vals layer_ID).1
          (t2 ++ (render_prepare a vals layer_ID).2)

/-- The three layer checks at the top of `render` pass. -/
def LayersValid (a : Answers) (vals : PlugInVals) : Prop :=
  a.layer_is_layer = true ∧
    (vals.pres_layer_ID ≠ 0 → a.pres_is_layer = true) ∧
    (vals.disc_layer_ID ≠ 0 → a.disc_is_layer = true)

instance (a : Answers) (vals : PlugInVals) : Decidable (LayersValid a vals) := by
  unfold LayersValid; infer_instance

/-- Sample inputs for `render`: resize layer 7 to 80 x 60, with a
preservation layer 8 and no discard layer, auxiliary layers resized too. -/
def sampleVals : PlugInVals :=
  { new_width := 80, new_height := 60, pres_layer_ID := 8, disc_layer_ID := 0,
    new_layer := false, resize_canvas := true, resize_aux_layers := true,
    output_seams := false, mask_behavior := 0 }

/-- Sample answers in which every check and every engine call succeeds. -/
def sampleAnswers : Answers :=
  { active_layer := 7, layer_is_layer := true, pres_is_layer := true,
    disc_is_layer := true, floating_sel := false, selection_is_empty := true,
    layer_copy := 9, layer_mask := -1, x_off := 0, y_off := 0, old_width := 100,
    old_height := 60, pres_x_off := 0, pres_y_off := 0, disc_x_off := 0, disc_y_off := 0,
    raster_new := true, raster_resize := true, write_layer := true, write_pres := true,
    write_disc := true }

/-! ## Basic facts on the skip loops -/

theorem gint_mul_eq (a b : Int) (h1 : -2147483648 ≤ a * b) (h2 : a * b < 2147483648) :
    gint_mul a b = a * b := by
  unfold gint_mul gint_wrap
  generalize a * b = n at h1 h2
  omega

/-- The 32-bit product matters: with `w0 = h0 = 65536` the bound of the debug
assertion wraps to 0, and `lqr_cursor_next` stops at its first `assert` on
the six-record sample grid. -/
theorem next_assert_fires_on_wrapped_bound :
    lqr_cursor_next true
        { sampleCursor 1 1 0 with o := { sampleRaster with w0 := 65536, h0 := 65536 } } =
      .assertFail .bounds := by
  simp [lqr_cursor_next, walk_forward, sampleCursor, sampleRaster, gint_mul, gint_wrap,
    Outcome.map]

theorem gridFits_bound {c : LqrCursor} (h : GridFits c) :
    (c.map.length : Int) ≤ gint_mul c.o.w0 c.o.h0 := by
  obtain ⟨h1, h2⟩ := h
  rw [gint_mul_eq _ _ (by omega) h2]
  exact h1

theorem onRowGrid_bound {c : LqrCursor} {w0 h0 w : Nat} (hgrid : OnRowGrid c w0 h0 w)
    (hfits : w0 * h0 < 2147483648) :
    (c.map.length : Int) ≤ gint_mul c.o.w0 c.o.h0 := by
  have hcast : ((w0 * h0 : Nat) : Int) < 2147483648 := by exact_mod_cast hfits
  have hprod : ((w0 * h0 : Nat) : Int) = (w0 : Int) * (h0 : Int) := by push_cast; rfl
  rw [hgrid.w0_eq, hgrid.h0_eq, hgrid.size, gint_mul_eq _ _ (by omega) (by omega)]
  omega

theorem sample_onRowGrid (x y now : Int) : OnRowGrid (sampleCursor x y now) 3 2 2 :=
  ⟨rfl, rfl, rfl, rfl, by show RowsHold 2 sampleMap 3 2 2; decide⟩


theorem skipped_eq_not_visible (level : Int) (d : LqrData) :
    skipped level d = !visible level d := by
  unfold skipped visible
  by_cases h0 : d.vs = 0
  · simp [bne, h0]
  · by_cases h1 : d.vs < level
    · have h2 : ¬ level ≤ d.vs := by omega
      simp [bne, h0, h1, h2]
    · have h2 : level ≤ d.vs := by omega
      simp [bne, h0, h1, h2]

theorem visibleAt_inBounds {level : Int} {map : List LqrData} {p : Int}
    (h : visibleAt level map p = true) : 0 ≤ p ∧ p.toNat < map.length := by
  unfold visibleAt at h
  split at h
  · assumption
  · simp at h

theorem skip_forward_visible (dbg : Bool) (bound : Int) {level : Int}
    {map : List LqrData} {p : Int} (h : visibleAt level map p = true) :
    skip_forward dbg bound level map p = .ok p := by
  have hb := visibleAt_inBounds h
  rw [skip_forward]
  simp only [visibleAt, hb, and_self, dite_true] at h
  simp [hb, skipped_eq_not_visible, h]

theorem skip_forward_hidden (dbg : Bool) (bound : Int) {level : Int}
    {map : List LqrData} {p : Int} (hb : 0 ≤ p ∧ p.toNat < map.length)
    (h : visibleAt level map p = false) :
    skip_forward dbg bound level map p =
      if dbg && !decide (p + 1 < bound) then .assertFail .bounds
      else skip_forward dbg bound level map (p + 1) := by
  rw [skip_forward]
  simp only [visibleAt, hb, and_self, dite_true] at h
  simp [hb, skipped_eq_not_visible, h]

theorem skip_forward_outside (dbg : Bool) (bound level : Int)
    {map : List LqrData} {p : Int} (hb : ¬ (0 ≤ p ∧ p.toNat < map.length)) :
    skip_forward dbg bound level map p = .outOfBounds := by
  rw [skip_forward]
  simp [hb]

theorem skip_backward_visible (dbg : Bool) {level : Int}
    {map : List LqrData} {p : Int} (h : visibleAt level map p = true) :
    skip_backward dbg level map p = .ok p := by
  have hb := visibleAt_inBounds h
  rw [skip_backward]
  simp only [visibleAt, hb, and_self, dite_true] at h
  simp [hb, skipped_eq_not_visible, h]

theorem skip_backward_hidden (dbg : Bool) {level : Int}
    {map : List LqrData} {p : Int} (hb : 0 ≤ p ∧ p.toNat < map.length)
    (h : visibleAt level map p = false) :
    skip_backward dbg level map p =
      if dbg && !decide (0 ≤ p - 1) then .assertFail .bounds
      else skip_backward dbg level map (p - 1) := by
  rw [skip_backward]
  simp only [visibleAt, hb, and_self, dite_true] at h
  simp [hb, skipped_eq_not_visible, h]

theorem skip_backward_outside (dbg : Bool) (level : Int)
    {map : List LqrData} {p : Int} (hb : ¬ (0 ≤ p ∧ p.toNat < map.length)) :
    skip_backward dbg level map p = .outOfBounds := by
  rw [skip_backward]
  simp [hb]

/-! ## What the skip loops compute -/

/-- Forward loop, total form: started inside the grid at or before a visible
record, the loop returns the first visible record from `p` on. In a debug
build the assertion needs that record to lie below `bound`. -/
theorem skip_forward_finds (dbg : Bool) (bound level : Int) (map : List LqrData) :
    ∀ (n : Nat) (p q : Int), 0 ≤ p → q - p = n → visibleAt level map q = true →
      (dbg = true → q < bound) →
      ∃ q', skip_forward dbg bound level map p = .ok q' ∧ p ≤ q' ∧ q' ≤ q ∧
        visibleAt level map q' = true ∧
        ∀ j, p ≤ j → j < q' → visibleAt level map j = false := by
  intro n
  induction n with
  | zero =>
    intro p q hp hpq hq _
    have hqp : q = p := by omega
    subst hqp
    exact ⟨q, skip_forward_visible dbg bound hq, le_refl _, le_refl _, hq,
      fun j h1 h2 => by omega⟩
  | succ n ih =>
    intro p q hp hpq hq hb
    by_cases hv : visibleAt level map p = true
    · exact ⟨p, skip_forward_visible dbg bound hv, le_refl _, by omega, hv,
        fun j h1 h2 => by omega⟩
    · have hv' : visibleAt level map p = false := by simpa using hv
      have hqb := visibleAt_inBounds hq
      have hpb : 0 ≤ p ∧ p.toNat < map.length := ⟨hp, by omega⟩
      obtain ⟨q', h1, h2, h3, h4, h5⟩ := ih (p + 1) q (by omega) (by omega) hq hb
      refine ⟨q', ?_, by omega, h3, h4, ?_⟩
      · rw [skip_forward_hidden dbg bound hpb hv']
        have hnf : (dbg && !decide (p + 1 < bound)) = false := by
          cases dbg
          · rfl
          · have hq' := hb rfl
            have hlt : p + 1 < bound := by omega
            simp [hlt]
        rw [hnf]
        simpa using h1
      · intro j hj1 hj2
        by_cases hjp : j = p
        · subst hjp; exact hv'
        · exact h5 j (by omega) hj2

/-- Forward loop, partial form: whatever the build, a returned offset is the
first visible record from `p` on, and `p` was inside the grid. -/
theorem skip_forward_ok (dbg : Bool) (bound level : Int) (map : List LqrData) :
    ∀ (n : Nat) (p q : Int), map.length - p.toNat ≤ n →
      skip_forward dbg bound level map p = .ok q →
      0 ≤ p ∧ p ≤ q ∧ visibleAt level map q = true ∧
        ∀ j, p ≤ j → j < q → visibleAt level map j = false := by
  intro n
  induction n with
  | zero =>
    intro p q hn h
    rw [skip_forward_outside dbg bound level (by omega)] at h
    cases h
  | succ n ih =>
    intro p q hn h
    by_cases hb : 0 ≤ p ∧ p.toNat < map.length
    · by_cases hv : visibleAt level map p = true
      · rw [skip_forward_visible dbg bound hv] at h
        cases h
        exact ⟨hb.1, le_refl _, hv, fun j h1 h2 => by omega⟩
      · have hv' : visibleAt level map p = false := by simpa using hv
        rw [skip_forward_hidden dbg bound hb hv'] at h
        split at h
        · cases h
        · obtain ⟨_, h2, h3, h4⟩ := ih (p + 1) q (by omega) h
          refine ⟨hb.1, by omega, h3, ?_⟩
          intro j hj1 hj2
          by_cases hjp : j = p
          · subst hjp; exact hv'
          · exact h4 j (by omega) hj2
    · rw [skip_forward_outside dbg bound level hb] at h
      cases h

/-- Backward loop, total form: started inside the grid at or after a visible
record, the loop returns the last visible record up to `p`. -/
theorem skip_backward_finds (dbg : Bool) (level : Int) (map : List LqrData) :
    ∀ (n : Nat) (p q : Int), p.toNat < map.length → p - q = n →
      visibleAt level map q = true →
      ∃ q', skip_backward dbg level map p = .ok q' ∧ q ≤ q' ∧ q' ≤ p ∧
        visibleAt level map q' = true ∧
        ∀ j, q' < j → j ≤ p → visibleAt level map j = false := by
  intro n
  induction n with
  | zero =>
    intro p q _ hpq hq
    have hqp : q = p := by omega
    subst hqp
    exact ⟨q, skip_backward_visible dbg hq, le_refl _, le_refl _, hq,
      fun j h1 h2 => by omega⟩
  | succ n ih =>
    intro p q hp hpq hq
    by_cases hv : visibleAt level map p = true
    · exact ⟨p, skip_backward_visible dbg hv, by omega, le_refl _, hv,
        fun j h1 h2 => by omega⟩
    · have hv' : visibleAt level map p = false := by simpa using hv
      have hqb := visibleAt_inBounds hq
      have hpb : 0 ≤ p ∧ p.toNat < map.length := ⟨by omega, hp⟩
      obtain ⟨q', h1, h2, h3, h4, h5⟩ := ih (p - 1) q (by omega) (by omega) hq
      refine ⟨q', ?_, h2, by omega, h4, ?_⟩
      · rw [skip_backward_hidden dbg hpb hv']
        have hnf : (dbg && !decide (0 ≤ p - 1)) = false := by
          have hge : 0 ≤ p - 1 := by omega
          simp [hge]
        rw [hnf]
        simpa using h1
      · intro j hj1 hj2
        by_cases hjp : j = p
        · subst hjp; exact hv'
        · exact h5 j hj1 (by omega)

/-- Backward loop, partial form: whatever the build, a returned offset is the
last visible record up to `p`, and `p` was inside the grid. -/
theorem skip_backward_ok (dbg : Bool) (level : Int) (map : List LqrData) :
    ∀ (n : Nat) (p q : Int), (p + 1).toNat ≤ n →
      skip_backward dbg level map p = .ok q →
      p.toNat < map.length ∧ q ≤ p ∧ visibleAt level map q = true ∧
        ∀ j, q < j → j ≤ p → visibleAt level map j = false := by
  intro n
  induction n with
  | zero =>
    intro p q hn h
    rw [skip_backward_outside dbg level (by omega)] at h
    cases h
  | succ n ih =>
    intro p q hn h
    by_cases hb : 0 ≤ p ∧ p.toNat < map.length
    · by_cases hv : visibleAt level map p = true
      · rw [skip_backward_visible dbg hv] at h
        cases h
        exact ⟨hb.2, le_refl _, hv, fun j h1 h2 => by omega⟩
      · have hv' : visibleAt level map p = false := by simpa using hv
        rw [skip_backward_hidden dbg hb hv'] at h
        split at h
        · cases h
        · obtain ⟨_, h2, h3, h4⟩ := ih (p - 1) q (by omega) h
          refine ⟨hb.2, by omega, h3, ?_⟩
          intro j hj1 hj2
          by_cases hjp : j = p
          · subst hjp; exact hv'
          · exact h4 j hj1 (by omega)
    · rw [skip_backward_outside dbg level hb] at h
      cases h

/-! ## Visibility in terms of the stored records -/

theorem visibleAt_iff (level : Int) (map : List LqrData) (n : Nat) :
    visibleAt level map (n : Int) = true ↔
      ∃ d, map[n]? = some d ∧ (d.vs = 0 ∨ level ≤ d.vs) := by
  by_cases hn : n < map.length
  · simp [visibleAt, visible, hn, List.getElem?_eq_getElem hn]
  · have hnone : map[n]? = none := List.getElem?_eq_none (by omega)
    simp [visibleAt, hn, hnone]

theorem hidden_iff (level : Int) (map : List LqrData) (n : Nat) (hn : n < map.length) :
    visibleAt level map (n : Int) = false ↔
      ∃ d, map[n]? = some d ∧ d.vs ≠ 0 ∧ d.vs < level := by
  simp [visibleAt, visible, hn, List.getElem?_eq_getElem hn]

/-! ## The walks of the cursor operations -/

@[simp] theorem Outcome.map_ok {α β : Type} (f : α → β) (a : α) :
    (Outcome.ok a).map f = .ok (f a) := rfl

@[simp] theorem Outcome.map_assertFail {α β : Type} (f : α → β) (w : Assertion) :
    (Outcome.assertFail w : Outcome α).map f = .assertFail w := rfl

@[simp] theorem Outcome.map_outOfBounds {α β : Type} (f : α → β) :
    (Outcome.outOfBounds : Outcome α).map f = .outOfBounds := rfl

theorem Outcome.map_eq_ok {α β : Type} {f : α → β} {o : Outcome α} {b : β}
    (h : o.map f = .ok b) : ∃ a, o = .ok a ∧ f a = b := by
  cases o with
  | ok a => exact ⟨a, rfl, by simpa using h⟩
  | assertFail w => cases h
  | outOfBounds => cases h

theorem walk_forward_ok {dbg : Bool} {bound level : Int} {map : List LqrData} {p q : Int}
    (h : walk_forward dbg bound level map p = .ok q) :
    0 ≤ p + 1 ∧ p < q ∧ visibleAt level map q = true ∧
      ∀ j, p < j → j < q → visibleAt level map j = false := by
  unfold walk_forward at h
  split at h
  · cases h
  · obtain ⟨h1, h2, h3, h4⟩ := skip_forward_ok dbg _ _ _ _ _ _ (le_refl _) h
    exact ⟨h1, by omega, h3, fun j hj1 hj2 => h4 j (by omega) hj2⟩

theorem walk_forward_finds (dbg : Bool) (bound level : Int) (map : List LqrData)
    (p q : Int) (hp : 0 ≤ p + 1) (hlt : p < q) (hq : visibleAt level map q = true)
    (hdbg : dbg = true → q < bound) :
    ∃ q', walk_forward dbg bound level map p = .ok q' ∧ p < q' ∧ q' ≤ q ∧
      visibleAt level map q' = true ∧
      ∀ j, p < j → j < q' → visibleAt level map j = false := by
  obtain ⟨q', h1, h2, h3, h4, h5⟩ :=
    skip_forward_finds dbg bound level map (q - (p + 1)).toNat (p + 1) q hp (by omega) hq hdbg
  refine ⟨q', ?_, by omega, h3, h4, fun j hj1 hj2 => h5 j (by omega) hj2⟩
  unfold walk_forward
  have hnf : (dbg && !decide (p + 1 < bound)) = false := by
    cases hd : dbg
    · rfl
    · have hlt' : p + 1 < bound := by have := hdbg hd; omega
      simp [hlt']
  simp [hnf, h1]

theorem walk_backward_ok {dbg : Bool} {level : Int} {map : List LqrData} {p q : Int}
    (h : walk_backward dbg level map p = .ok q) :
    (p - 1).toNat < map.length ∧ q < p ∧ visibleAt level map q = true ∧
      ∀ j, q < j → j < p → visibleAt level map j = false := by
  unfold walk_backward at h
  split at h
  · cases h
  · obtain ⟨h1, h2, h3, h4⟩ := skip_backward_ok dbg _ _ _ _ _ (le_refl _) h
    exact ⟨h1, by omega, h3, fun j hj1 hj2 => h4 j hj1 (by omega)⟩

theorem walk_backward_finds (dbg : Bool) (level : Int) (map : List LqrData)
    (p q : Int) (hp : (p - 1).toNat < map.length) (hlt : q < p)
    (hq : visibleAt level map q = true) :
    ∃ q', walk_backward dbg level map p = .ok q' ∧ q ≤ q' ∧ q' < p ∧
      visibleAt level map q' = true ∧
      ∀ j, q' < j → j < p → visibleAt level map j = false := by
  have hqb := visibleAt_inBounds hq
  obtain ⟨q', h1, h2, h3, h4, h5⟩ :=
    skip_backward_finds dbg level map (p - 1 - q).toNat (p - 1) q hp (by omega) hq
  refine ⟨q', ?_, h2, by omega, h4, fun j hj1 hj2 => h5 j hj1 (by omega)⟩
  unfold walk_backward
  have hge : 0 ≤ p - 1 := by omega
  simp [hge, h1]

theorem reset_ok {dbg : Bool} {c c' : LqrCursor} (h : lqr_cursor_reset dbg c = .ok c') :
    ∃ q, c' = { c with x := 1, y := 1, now := q } ∧
      visibleAt c.o.level c.map q = true ∧
      ∀ j, 0 ≤ j → j < q → visibleAt c.o.level c.map j = false := by
  unfold lqr_cursor_reset at h
  split at h
  · cases h
  · obtain ⟨q, hq, rfl⟩ := Outcome.map_eq_ok h
    obtain ⟨_, _, h3, h4⟩ := skip_forward_ok dbg _ _ _ _ _ _ (le_refl _) hq
    exact ⟨q, rfl, h3, h4⟩

theorem reset_finds (dbg : Bool) (c : LqrCursor) (q : Int)
    (hq : visibleAt c.o.level c.map q = true)
    (hdbg : dbg = true → c.initialized = true ∧ q < c.o.w0) :
    ∃ q', lqr_cursor_reset dbg c = .ok { c with x := 1, y := 1, now := q' } ∧
      0 ≤ q' ∧ q' ≤ q ∧ visibleAt c.o.level c.map q' = true ∧
      ∀ j, 0 ≤ j → j < q' → visibleAt c.o.level c.map j = false := by
  have hqb := visibleAt_inBounds hq
  obtain ⟨q', h1, h2, h3, h4, h5⟩ :=
    skip_forward_finds dbg c.o.w0 c.o.level c.map q.toNat 0 q (le_refl _) (by omega) hq
      (fun hd => (hdbg hd).2)
  refine ⟨q', ?_, h2, h3, h4, h5⟩
  unfold lqr_cursor_reset
  have hnf : (dbg && !c.initialized) = false := by
    cases hd : dbg
    · rfl
    · simp [(hdbg hd).1]
  simp [hnf, h1]

theorem next_ok_cases {dbg : Bool} {c c' : LqrCursor}
    (h : lqr_cursor_next dbg c = .ok c') :
    (c.x = c.o.w ∧ c.y = c.o.h ∧ c' = c) ∨
    (¬ (c.x = c.o.w ∧ c.y = c.o.h) ∧
      ∃ q, walk_forward dbg (gint_mul c.o.w0 c.o.h0) c.o.level c.map c.now = .ok q ∧
        c' = { c with x := if c.x = c.o.w then 1 else c.x + 1,
                      y := if c.x = c.o.w then c.y + 1 else c.y, now := q }) := by
  unfold lqr_cursor_next at h
  split at h
  · cases h
  · split at h
    · next hx =>
      split at h
      · next hy => cases h; exact Or.inl ⟨hx, hy, rfl⟩
      · next hy =>
        obtain ⟨q, hq, rfl⟩ := Outcome.map_eq_ok h
        exact Or.inr ⟨fun hh => hy hh.2, q, hq, by simp [hx]⟩
    · next hx =>
      obtain ⟨q, hq, rfl⟩ := Outcome.map_eq_ok h
      exact Or.inr ⟨fun hh => hx hh.1, q, hq, by simp [hx]⟩

theorem prev_ok_cases {dbg : Bool} {c c' : LqrCursor}
    (h : lqr_cursor_prev dbg c = .ok c') :
    (c.x = 1 ∧ c.y = 1 ∧ c' = c) ∨
    (¬ (c.x = 1 ∧ c.y = 1) ∧
      ∃ q, walk_backward dbg c.o.level c.map c.now = .ok q ∧
        c' = { c with x := if c.x = 1 then c.o.w else c.x - 1,
                      y := if c.x = 1 then c.y - 1 else c.y, now := q }) := by
  unfold lqr_cursor_prev at h
  split at h
  · next hx =>
    split at h
    · next hy => cases h; exact Or.inl ⟨hx, hy, rfl⟩
    · next hy =>
      obtain ⟨q, hq, rfl⟩ := Outcome.map_eq_ok h
      exact Or.inr ⟨fun hh => hy hh.2, q, hq, by simp [hx]⟩
  · next hx =>
    obtain ⟨q, hq, rfl⟩ := Outcome.map_eq_ok h
    exact Or.inr ⟨fun hh => hx hh.1, q, hq, by simp [hx]⟩

theorem right_ok {dbg : Bool} {c c' : LqrCursor} {p : Int}
    (h : lqr_cursor_right dbg c = .ok (p, c')) :
    c' = c ∧ walk_forward dbg (gint_mul c.o.w0 c.o.h0) c.o.level c.map c.now = .ok p := by
  unfold lqr_cursor_right at h
  split at h
  · cases h
  · split at h
    · cases h
    · obtain ⟨q, hq, hqp⟩ := Outcome.map_eq_ok h
      cases hqp
      exact ⟨rfl, hq⟩

theorem left_ok {dbg : Bool} {c c' : LqrCursor} {p : Int}
    (h : lqr_cursor_left dbg c = .ok (p, c')) :
    c' = c ∧ walk_backward dbg c.o.level c.map c.now = .ok p := by
  unfold lqr_cursor_left at h
  split at h
  · cases h
  · split at h
    · cases h
    · obtain ⟨q, hq, hqp⟩ := Outcome.map_eq_ok h
      cases hqp
      exact ⟨rfl, hq⟩

theorem next_eq_walk (dbg : Bool) (c : LqrCursor)
    (hinit : dbg = true → c.initialized = true) (hend : ¬ (c.x = c.o.w ∧ c.y = c.o.h)) :
    lqr_cursor_next dbg c =
      (walk_forward dbg (gint_mul c.o.w0 c.o.h0) c.o.level c.map c.now).map
        (fun q => { c with x := if c.x = c.o.w then 1 else c.x + 1,
                           y := if c.x = c.o.w then c.y + 1 else c.y, now := q }) := by
  have hnf : (dbg && !c.initialized) = false := by
    cases hd : dbg
    · rfl
    · simp [hinit hd]
  unfold lqr_cursor_next
  by_cases hx : c.x = c.o.w
  · have hy : ¬ c.y = c.o.h := fun hy => hend ⟨hx, hy⟩
    simp [hnf, hx, hy]
  · simp [hnf, hx]

theorem prev_eq_walk (dbg : Bool) (c : LqrCursor) (hend : ¬ (c.x = 1 ∧ c.y = 1)) :
    lqr_cursor_prev dbg c =
      (walk_backward dbg c.o.level c.map c.now).map
        (fun q => { c with x := if c.x = 1 then c.o.w else c.x - 1,
                           y := if c.x = 1 then c.y - 1 else c.y, now := q }) := by
  unfold lqr_cursor_prev
  by_cases hx : c.x = 1
  · have hy : ¬ c.y = 1 := fun hy => hend ⟨hx, hy⟩
    simp [hx, hy]
  · simp [hx]

theorem walk_backward_of_forward (dbg' : Bool) {dbg : Bool} {bound level : Int}
    {map : List LqrData} {p q : Int}
    (h : walk_forward dbg bound level map p = .ok q)
    (hp : visibleAt level map p = true) :
    walk_backward dbg' level map q = .ok p := by
  obtain ⟨_, hlt, hq, hmin⟩ := walk_forward_ok h
  have hqb := visibleAt_inBounds hq
  have hpb := visibleAt_inBounds hp
  obtain ⟨q', h1, h2, h3, h4, _⟩ :=
    walk_backward_finds dbg' level map q p (by omega) hlt hp
  have hq'p : q' = p := by
    by_contra hne
    have := hmin q' (by omega) h3
    rw [this] at h4; cases h4
  rw [h1, hq'p]

theorem walk_forward_of_backward (dbg' : Bool) (bound : Int) {dbg : Bool} {level : Int}
    {map : List LqrData} {p q : Int}
    (h : walk_backward dbg level map p = .ok q)
    (hp : visibleAt level map p = true) (hb : dbg' = true → p < bound) :
    walk_forward dbg' bound level map q = .ok p := by
  obtain ⟨_, hlt, hq, hmin⟩ := walk_backward_ok h
  have hqb := visibleAt_inBounds hq
  obtain ⟨q', h1, h2, h3, h4, _⟩ :=
    walk_forward_finds dbg' bound level map q p (by omega) hlt hp hb
  have hq'p : q' = p := by
    by_contra hne
    have := hmin q' h2 (by omega)
    rw [this] at h4; cases h4
  rw [h1, hq'p]

/-! ## Counting visible records -/

theorem countVisible_mono (level : Int) (map : List LqrData) {a b : Nat} (hab : a ≤ b) :
    countVisible level map a ≤ countVisible level map b := by
  induction b, hab using Nat.le_induction with
  | base => exact le_refl _
  | succ b _ ih =>
    simp only [countVisible]
    omega

theorem countVisible_hidden_range (level : Int) (map : List LqrData) {a b : Nat}
    (hab : a ≤ b) (h : ∀ j : Nat, a ≤ j → j < b → visibleAt level map (j : Int) = false) :
    countVisible level map b = countVisible level map a := by
  induction b, hab using Nat.le_induction with
  | base => rfl
  | succ b hb ih =>
    simp only [countVisible]
    rw [ih (fun j h1 h2 => h j h1 (by omega)), h b hb (by omega)]
    simp

theorem countVisible_exists (level : Int) (map : List LqrData) {a b : Nat}
    (h : countVisible level map a < countVisible level map b) :
    ∃ j : Nat, a ≤ j ∧ j < b ∧ visibleAt level map (j : Int) = true := by
  by_contra hno
  have hall : ∀ j : Nat, a ≤ j → j < b → visibleAt level map (j : Int) = false := by
    intro j h1 h2
    by_contra hv
    exact hno ⟨j, h1, h2, by simpa using hv⟩
  rcases Nat.le_total a b with hab | hba
  · have := countVisible_hidden_range level map hab hall
    omega
  · have := countVisible_mono level map hba
    omega

theorem countVisible_succ_of_visible (level : Int) (map : List LqrData) {n : Nat}
    (h : visibleAt level map (n : Int) = true) :
    countVisible level map (n + 1) = countVisible level map n + 1 := by
  simp [countVisible, h]

/-! ## Arithmetic of row-major positions -/

theorem succ_divmod_wrap (a w : Int) (hw : 0 < w) (h : a % w + 1 = w) :
    (a + 1) % w = 0 ∧ (a + 1) / w = a / w + 1 := by
  have h1 := Int.emod_add_ediv a w
  have h2 : (a + 1) / w = a / w + 1 ∧ (a + 1) % w = 0 := by
    rw [Int.ediv_emod_unique hw]
    refine ⟨?_, le_refl _, hw⟩
    have : w * (a / w + 1) = w * (a / w) + w := by ring
    omega
  exact ⟨h2.2, h2.1⟩

theorem succ_divmod_step (a w : Int) (hw : 0 < w) (h : a % w + 1 ≠ w) :
    (a + 1) % w = a % w + 1 ∧ (a + 1) / w = a / w := by
  have h1 := Int.emod_add_ediv a w
  have h3 := Int.emod_nonneg a (ne_of_gt hw)
  have h4 := Int.emod_lt_of_pos a hw
  have h2 : (a + 1) / w = a / w ∧ (a + 1) % w = a % w + 1 := by
    rw [Int.ediv_emod_unique hw]
    refine ⟨by omega, by omega, by omega⟩
  exact ⟨h2.2, h2.1⟩

theorem last_position (a w h : Int) (hx : a % w + 1 = w) (hy : a / w + 1 = h) :
    a + 1 = w * h := by
  have h1 := Int.emod_add_ediv a w
  have : w * h = w * (a / w) + w := by rw [← hy]; ring
  omega

/-- Position reached by `lqr_cursor_reset` followed by `k` calls of
`lqr_cursor_next` on a grid that holds exactly `w * h` visible records. -/
theorem traverse_position (dbg : Bool) (c : LqrCursor) (hw : 1 ≤ c.o.w)
    (hcount : (countVisible c.o.level c.map c.map.length : Int) = c.o.w * c.o.h)
    (hdbg : dbg = true → c.initialized = true ∧ GridFits c ∧
      ∃ q, q < c.o.w0 ∧ visibleAt c.o.level c.map q = true) :
    ∀ k : Nat, (k : Int) < c.o.w * c.o.h →
      ∃ n : Nat,
        traverse dbg c k =
          .ok { c with x := (k : Int) % c.o.w + 1, y := (k : Int) / c.o.w + 1,
                       now := (n : Int) } ∧
        visibleAt c.o.level c.map (n : Int) = true ∧
        countVisible c.o.level c.map n = k := by
  intro k
  induction k with
  | zero =>
    intro hk
    have hpos : countVisible c.o.level c.map 0 < countVisible c.o.level c.map c.map.length := by
      have h0 : countVisible c.o.level c.map 0 = 0 := rfl
      simp only [Nat.cast_zero] at hk
      omega
    obtain ⟨j, _, _, hjv⟩ := countVisible_exists c.o.level c.map hpos
    have hreset : ∃ q', lqr_cursor_reset dbg c = .ok { c with x := 1, y := 1, now := q' } ∧
        0 ≤ q' ∧ visibleAt c.o.level c.map q' = true ∧
        ∀ j, 0 ≤ j → j < q' → visibleAt c.o.level c.map j = false := by
      cases hd : dbg
      · obtain ⟨q', h1, h2, _, h4, h5⟩ := reset_finds false c j hjv (by simp)
        exact ⟨q', h1, h2, h4, h5⟩
      · obtain ⟨hinit, _, q, hq, hqv⟩ := hdbg hd
        obtain ⟨q', h1, h2, _, h4, h5⟩ := reset_finds true c q hqv (fun _ => ⟨hinit, hq⟩)
        exact ⟨q', h1, h2, h4, h5⟩
    obtain ⟨q', h1, h2, h4, h5⟩ := hreset
    obtain ⟨n, rfl⟩ := Int.eq_ofNat_of_zero_le h2
    refine ⟨n, ?_, h4, ?_⟩
    · simp [traverse, h1]
    · rw [countVisible_hidden_range c.o.level c.map (Nat.zero_le n)
        (fun j _ hj => h5 j (by omega) (by omega))]
      rfl
  | succ k ih =>
    intro hk
    have hk' : (k : Int) + 1 < c.o.w * c.o.h := by push_cast at hk; exact hk
    obtain ⟨n, ht, hv, hc⟩ := ih (by omega)
    have hnotend : ¬ ((k : Int) % c.o.w + 1 = c.o.w ∧ (k : Int) / c.o.w + 1 = c.o.h) := by
      rintro ⟨hx, hy⟩
      have := last_position k c.o.w c.o.h hx hy
      omega
    have hsucc := countVisible_succ_of_visible c.o.level c.map hv
    have hlt : countVisible c.o.level c.map (n + 1) <
        countVisible c.o.level c.map c.map.length := by omega
    obtain ⟨j, hj1, hj2, hjv⟩ := countVisible_exists c.o.level c.map hlt
    obtain ⟨q', h1, h2, _, h4, h5⟩ :=
      walk_forward_finds dbg (gint_mul c.o.w0 c.o.h0) c.o.level c.map n j (by omega) (by omega) hjv
        (fun hd => by have := gridFits_bound (hdbg hd).2.1; omega)
    obtain ⟨m, rfl⟩ := Int.eq_ofNat_of_zero_le (by omega : (0 : Int) ≤ q')
    refine ⟨m, ?_, h4, ?_⟩
    · simp only [traverse, ht, Outcome.bind]
      rw [next_eq_walk dbg
        { c with x := (k : Int) % c.o.w + 1, y := (k : Int) / c.o.w + 1, now := (n : Int) }
        (fun hd => (hdbg hd).1) hnotend]
      simp only [h1, Outcome.map_ok]
      push_cast
      by_cases hx : (k : Int) % c.o.w + 1 = c.o.w
      · obtain ⟨e1, e2⟩ := succ_divmod_wrap k c.o.w (by omega) hx
        simp [hx, e1, e2]
      · obtain ⟨e1, e2⟩ := succ_divmod_step k c.o.w (by omega) hx
        simp [hx, e1, e2]
    · rw [countVisible_hidden_range c.o.level c.map (by omega : n + 1 ≤ m)
        (fun j hj1 hj2 => h5 j (by omega) (by omega))]
      omega

/-! ## Walks inside a grid with regular rows -/

theorem row_lt_of_mem {w0 h0 r i : Nat} (h1 : r * w0 ≤ i) (h2 : i < w0 * h0) : r < h0 := by
  by_contra hge
  have hle : h0 ≤ r := by omega
  have := Nat.mul_le_mul_left w0 hle
  have hcomm : r * w0 = w0 * r := Nat.mul_comm r w0
  omega

theorem walk_forward_in_row (dbg : Bool) (bound level : Int) (map : List LqrData)
    (w0 w r x i : Nat)
    (hrow : countVisible level map ((r + 1) * w0) = countVisible level map (r * w0) + w)
    (hnth : NthInRow level map w0 r x i) (hxw : x < w)
    (hb : dbg = true → (map.length : Int) ≤ bound) :
    ∃ j : Nat, walk_forward dbg bound level map (i : Int) = .ok (j : Int) ∧
      NthInRow level map w0 r (x + 1) j ∧ i < j ∧
      ∀ m : Nat, i < m → m < j → visibleAt level map (m : Int) = false := by
  obtain ⟨h1, h2, h3, h4⟩ := hnth
  have hsucc := countVisible_succ_of_visible level map h3
  have hlt : countVisible level map (i + 1) < countVisible level map ((r + 1) * w0) := by
    omega
  obtain ⟨j0, hj1, hj2, hjv⟩ := countVisible_exists level map hlt
  have hjb := visibleAt_inBounds hjv
  obtain ⟨q', e1, e2, e3, e4, e5⟩ :=
    walk_forward_finds dbg bound level map i j0 (by omega) (by omega) hjv
      (fun hd => by have := hb hd; omega)
  obtain ⟨j, rfl⟩ := Int.eq_ofNat_of_zero_le (by omega : (0 : Int) ≤ q')
  have hcnt : countVisible level map j = countVisible level map (i + 1) :=
    countVisible_hidden_range level map (by omega)
      (fun m hm1 hm2 => e5 m (by omega) (by omega))
  exact ⟨j, e1, ⟨by omega, by omega, e4, by omega⟩, by omega,
    fun m hm1 hm2 => e5 m (by omega) (by omega)⟩

theorem walk_backward_in_row (dbg : Bool) (level : Int) (map : List LqrData)
    (w0 r x i : Nat) (hnth : NthInRow level map w0 r x i) (hx : 1 < x) :
    ∃ j : Nat, walk_backward dbg level map (i : Int) = .ok (j : Int) ∧
      NthInRow level map w0 r (x - 1) j ∧ j < i ∧
      ∀ m : Nat, j < m → m < i → visibleAt level map (m : Int) = false := by
  obtain ⟨h1, h2, h3, h4⟩ := hnth
  have hib := visibleAt_inBounds h3
  have hlt : countVisible level map (r * w0) < countVisible level map i := by omega
  obtain ⟨j0, hj1, hj2, hjv⟩ := countVisible_exists level map hlt
  obtain ⟨q', e1, e2, e3, e4, e5⟩ :=
    walk_backward_finds dbg level map i j0 (by omega) (by omega) hjv
  obtain ⟨j, rfl⟩ := Int.eq_ofNat_of_zero_le (by omega : (0 : Int) ≤ q')
  have hsucc := countVisible_succ_of_visible level map e4
  have hcnt : countVisible level map i = countVisible level map (j + 1) :=
    countVisible_hidden_range level map (by omega)
      (fun m hm1 hm2 => e5 m (by omega) (by omega))
  exact ⟨j, e1, ⟨by omega, by omega, e4, by omega⟩, by omega,
    fun m hm1 hm2 => e5 m (by omega) (by omega)⟩

theorem walk_forward_to_next_row (dbg : Bool) (bound level : Int) (map : List LqrData)
    (w0 w r i : Nat) (hw : 1 ≤ w) (hi : i < (r + 1) * w0)
    (hrow : countVisible level map ((r + 1 + 1) * w0) =
      countVisible level map ((r + 1) * w0) + w)
    (hb : dbg = true → (map.length : Int) ≤ bound) :
    ∃ j : Nat, walk_forward dbg bound level map (i : Int) = .ok (j : Int) ∧
      j < map.length := by
  have hlt : countVisible level map ((r + 1) * w0) <
      countVisible level map ((r + 1 + 1) * w0) := by omega
  obtain ⟨j0, hj1, hj2, hjv⟩ := countVisible_exists level map hlt
  have hjb := visibleAt_inBounds hjv
  obtain ⟨q', e1, e2, e3, e4, e5⟩ :=
    walk_forward_finds dbg bound level map i j0 (by omega) (by omega) hjv
      (fun hd => by have := hb hd; omega)
  obtain ⟨j, rfl⟩ := Int.eq_ofNat_of_zero_le (by omega : (0 : Int) ≤ q')
  exact ⟨j, e1, by omega⟩

theorem walk_backward_to_prev_row (dbg : Bool) (level : Int) (map : List LqrData)
    (w0 w r i : Nat) (hw : 1 ≤ w) (hi : (r + 1) * w0 ≤ i) (hlen : i < map.length)
    (hrow : countVisible level map ((r + 1) * w0) = countVisible level map (r * w0) + w) :
    ∃ j : Nat, walk_backward dbg level map (i : Int) = .ok (j : Int) := by
  have hlt : countVisible level map (r * w0) < countVisible level map ((r + 1) * w0) := by
    omega
  obtain ⟨j0, hj1, hj2, hjv⟩ := countVisible_exists level map hlt
  obtain ⟨q', e1, e2, e3, e4, e5⟩ :=
    walk_backward_finds dbg level map i j0 (by omega) (by omega) hjv
  obtain ⟨j, rfl⟩ := Int.eq_ofNat_of_zero_le (by omega : (0 : Int) ≤ q')
  exact ⟨j, e1⟩

theorem inv_intro (c : LqrCursor) (x y now : Int) (hx1 : 1 ≤ x) (hx2 : x ≤ c.o.w)
    (hy1 : 1 ≤ y) (hy2 : y ≤ c.o.h) (hv : visibleAt c.o.level c.map now = true) :
    Inv { c with x := x, y := y, now := now } :=
  ⟨hx1, hx2, hy1, hy2, hv⟩

/-- C1. `lqr_cursor_reset`: if some record of the grid is visible
(`vs == 0` or `vs >= level`), then reset returns with `x = 1`, `y = 1` and
`now` on the record of least storage index `k` that is visible, and every
record before it has `vs != 0` and `vs < level`. This holds in the build
without `__LQR_DEBUG__`, and in a debug build for an initialised cursor with
a visible record among the first `w0` (what its `assert` demands). In any
build, reset can return no other cursor. -/
theorem lqr_cursor_reset_first_visible (dbg : Bool) (c : LqrCursor) (i : Nat)
    (d : LqrData) (hi : c.map[i]? = some d) (hd : d.vs = 0 ∨ c.o.level ≤ d.vs)
    (hdbg : dbg = true → c.initialized = true ∧
      ∃ q, q < c.o.w0 ∧ visibleAt c.o.level c.map q = true) :
    ∃ k : Nat, k ≤ i ∧
      lqr_cursor_reset dbg c = .ok { c with x := 1, y := 1, now := (k : Int) } ∧
      (∃ dk, c.map[k]? = some dk ∧ (dk.vs = 0 ∨ c.o.level ≤ dk.vs)) ∧
      (∀ j, j < k → ∃ dj, c.map[j]? = some dj ∧ dj.vs ≠ 0 ∧ dj.vs < c.o.level) ∧
      (∀ dbg' c', lqr_cursor_reset dbg' c = .ok c' →
        c' = { c with x := 1, y := 1, now := (k : Int) }) := by
  have hv : visibleAt c.o.level c.map (i : Int) = true :=
    (visibleAt_iff _ _ _).2 ⟨d, hi, hd⟩
  have hreset : ∃ q', lqr_cursor_reset dbg c = .ok { c with x := 1, y := 1, now := q' } ∧
      0 ≤ q' ∧ visibleAt c.o.level c.map q' = true ∧
      ∀ j, 0 ≤ j → j < q' → visibleAt c.o.level c.map j = false := by
    cases hdb : dbg
    · obtain ⟨q', h1, h2, _, h4, h5⟩ := reset_finds false c i hv (by simp)
      exact ⟨q', h1, h2, h4, h5⟩
    · obtain ⟨hinit, q, hq, hqv⟩ := hdbg hdb
      obtain ⟨q', h1, h2, _, h4, h5⟩ := reset_finds true c q hqv (fun _ => ⟨hinit, hq⟩)
      exact ⟨q', h1, h2, h4, h5⟩
  obtain ⟨q, h1, h2, h4, h5⟩ := hreset
  obtain ⟨k, rfl⟩ := Int.eq_ofNat_of_zero_le h2
  have hkb := visibleAt_inBounds h4
  have hki : k ≤ i := by
    by_contra hlt
    have := h5 i (by omega) (by omega)
    rw [this] at hv
    cases hv
  refine ⟨k, hki, h1, (visibleAt_iff _ _ _).1 h4, ?_, ?_⟩
  · intro j hj
    exact (hidden_iff _ _ j (by omega)).1 (h5 j (by omega) (by omega))
  · intro dbg' c' hc'
    obtain ⟨q, rfl, hq1, hq2⟩ := reset_ok hc'
    have hqb := visibleAt_inBounds hq1
    have hqk : q = (k : Int) := by
      by_contra hne
      rcases lt_or_gt_of_ne hne with hlt | hgt
      · have := h5 q hqb.1 hlt
        rw [this] at hq1; cases hq1
      · have := hq2 k (by omega) hgt
        rw [this] at h4; cases h4
    rw [hqk]

/-- Witness for C1, in a debug build: a one-row grid of four records at level
3 whose first visible record is the third one. -/
theorem lqr_cursor_reset_first_visible_witness :
    ∃ k : Nat, k ≤ 3 ∧
      lqr_cursor_reset true ⟨7, 9, ⟨2, 1, 4, 1, 3⟩, [⟨1⟩, ⟨2⟩, ⟨3⟩, ⟨0⟩], 0, true⟩ =
        .ok ⟨1, 1, ⟨2, 1, 4, 1, 3⟩, [⟨1⟩, ⟨2⟩, ⟨3⟩, ⟨0⟩], (k : Int), true⟩ ∧
      (∃ dk, [(⟨1⟩ : LqrData), ⟨2⟩, ⟨3⟩, ⟨0⟩][k]? = some dk ∧ (dk.vs = 0 ∨ 3 ≤ dk.vs)) ∧
      (∀ j, j < k → ∃ dj, [(⟨1⟩ : LqrData), ⟨2⟩, ⟨3⟩, ⟨0⟩][j]? = some dj ∧
        dj.vs ≠ 0 ∧ dj.vs < 3) ∧
      (∀ dbg' c',
        lqr_cursor_reset dbg' ⟨7, 9, ⟨2, 1, 4, 1, 3⟩, [⟨1⟩, ⟨2⟩, ⟨3⟩, ⟨0⟩], 0, true⟩ = .ok c' →
        c' = ⟨1, 1, ⟨2, 1, 4, 1, 3⟩, [⟨1⟩, ⟨2⟩, ⟨3⟩, ⟨0⟩], (k : Int), true⟩) :=
  lqr_cursor_reset_first_visible true
    ⟨7, 9, ⟨2, 1, 4, 1, 3⟩, [⟨1⟩, ⟨2⟩, ⟨3⟩, ⟨0⟩], 0, true⟩ 3 ⟨0⟩ rfl (Or.inl rfl)
    (fun _ => ⟨rfl, 3, by decide, by decide⟩)

/-- C2. Cursor invariant `Inv` (`1 <= x <= w`, `1 <= y <= h`, `now` on a
visible record): it holds after `lqr_cursor_reset` when `w >= 1` and
`h >= 1`, and `lqr_cursor_next`, `lqr_cursor_prev`, `lqr_cursor_right` and
`lqr_cursor_left` preserve it, in every build, whenever the operation returns
(its walk stayed inside the grid); the record returned by right / left is
visible too. No operation changes the owner or the grid. -/
theorem cursor_invariant (dbg : Bool) (c c' : LqrCursor) :
    (1 ≤ c.o.w → 1 ≤ c.o.h → lqr_cursor_reset dbg c = .ok c' →
      Inv c' ∧ c'.o = c.o ∧ c'.map = c.map) ∧
    (Inv c → lqr_cursor_next dbg c = .ok c' → Inv c' ∧ c'.o = c.o ∧ c'.map = c.map) ∧
    (Inv c → lqr_cursor_prev dbg c = .ok c' → Inv c' ∧ c'.o = c.o ∧ c'.map = c.map) ∧
    (∀ p, Inv c → lqr_cursor_right dbg c = .ok (p, c') →
      Inv c' ∧ c' = c ∧ visibleAt c.o.level c.map p = true) ∧
    (∀ p, Inv c → lqr_cursor_left dbg c = .ok (p, c') →
      Inv c' ∧ c' = c ∧ visibleAt c.o.level c.map p = true) := by
  refine ⟨?_, ?_, ?_, ?_, ?_⟩
  · intro hw hh h
    obtain ⟨q, rfl, hq, _⟩ := reset_ok h
    exact ⟨inv_intro c 1 1 q (le_refl _) hw (le_refl _) hh hq, rfl, rfl⟩
  · intro hinv h
    obtain ⟨hx1, hx2, hy1, hy2, hnow⟩ := hinv
    unfold lqr_cursor_next at h
    split at h
    · cases h
    · split at h
      · split at h
        · cases h
          exact ⟨⟨hx1, hx2, hy1, hy2, hnow⟩, rfl, rfl⟩
        · obtain ⟨q, hq, rfl⟩ := Outcome.map_eq_ok h
          obtain ⟨_, _, hv, _⟩ := walk_forward_ok hq
          exact ⟨inv_intro c 1 (c.y + 1) q (le_refl _) (by omega) (by omega) (by omega) hv,
            rfl, rfl⟩
      · obtain ⟨q, hq, rfl⟩ := Outcome.map_eq_ok h
        obtain ⟨_, _, hv, _⟩ := walk_forward_ok hq
        exact ⟨inv_intro c (c.x + 1) c.y q (by omega) (by omega) hy1 hy2 hv, rfl, rfl⟩
  · intro hinv h
    obtain ⟨hx1, hx2, hy1, hy2, hnow⟩ := hinv
    unfold lqr_cursor_prev at h
    split at h
    · split at h
      · cases h
        exact ⟨⟨hx1, hx2, hy1, hy2, hnow⟩, rfl, rfl⟩
      · obtain ⟨q, hq, rfl⟩ := Outcome.map_eq_ok h
        obtain ⟨_, _, hv, _⟩ := walk_backward_ok hq
        exact ⟨inv_intro c c.o.w (c.y - 1) q (by omega) (le_refl _) (by omega) (by omega) hv,
          rfl, rfl⟩
    · obtain ⟨q, hq, rfl⟩ := Outcome.map_eq_ok h
      obtain ⟨_, _, hv, _⟩ := walk_backward_ok hq
      exact ⟨inv_intro c (c.x - 1) c.y q (by omega) (by omega) hy1 hy2 hv, rfl, rfl⟩
  · intro p hinv h
    unfold lqr_cursor_right at h
    split at h
    · cases h
    · split at h
      · cases h
      · obtain ⟨q, hq, hqp⟩ := Outcome.map_eq_ok h
        cases hqp
        obtain ⟨_, _, hv, _⟩ := walk_forward_ok hq
        exact ⟨hinv, rfl, hv⟩
  · intro p hinv h
    unfold lqr_cursor_left at h
    split at h
    · cases h
    · split at h
      · cases h
      · obtain ⟨q, hq, hqp⟩ := Outcome.map_eq_ok h
        cases hqp
        obtain ⟨_, _, hv, _⟩ := walk_backward_ok hq
        exact ⟨hinv, rfl, hv⟩

/-- Witness for C2 on the sample raster, in a debug build: the cursor at the
end of the first visible row satisfies the invariant, `lqr_cursor_next`
returns and wraps to the second row, and the invariant holds there. -/
theorem cursor_invariant_witness :
    Inv (sampleCursor 2 1 2) ∧
      lqr_cursor_next true (sampleCursor 2 1 2) = .ok (sampleCursor 1 2 4) ∧
      Inv (sampleCursor 1 2 4) ∧ (sampleCursor 1 2 4).o = (sampleCursor 2 1 2).o ∧
      (sampleCursor 1 2 4).map = (sampleCursor 2 1 2).map :=
  have h1 : Inv (sampleCursor 2 1 2) := by decide
  have h2 : lqr_cursor_next true (sampleCursor 2 1 2) = .ok (sampleCursor 1 2 4) := by
    simp [lqr_cursor_next, walk_forward, skip_forward, skipped, sampleCursor, sampleRaster,
      sampleMap, gint_mul, gint_wrap]
  ⟨h1, h2, (cursor_invariant true (sampleCursor 2 1 2) (sampleCursor 1 2 4)).2.1 h1 h2⟩

/-- C3, as stated, fails: a record stamped `vs = L + 1` is still landed on by
`lqr_cursor_reset` when the raster's level is `L + 1`, because the skip rule
needs `vs < level`. Here `L = 0` on a 2 x 1 grid whose first record carries
the stamp 1 and whose raster stands at level 1. -/
theorem seam_commit_visible_at_new_level :
    ¬ (∀ (L : Int) (c c' : LqrCursor) (i : Nat) (d : LqrData), 0 ≤ L →
        c.map[i]? = some d → d.vs = L + 1 → L + 1 ≤ c.o.level →
        lqr_cursor_reset false c = .ok c' → c'.now ≠ (i : Int)) := by
  intro h
  have hreset : lqr_cursor_reset false ⟨0, 0, ⟨1, 1, 2, 1, 1⟩, [⟨1⟩, ⟨0⟩], 0, true⟩ =
      .ok ⟨1, 1, ⟨1, 1, 2, 1, 1⟩, [⟨1⟩, ⟨0⟩], 0, true⟩ := by
    simp [lqr_cursor_reset, skip_forward, skipped]
  exact h 0 ⟨0, 0, ⟨1, 1, 2, 1, 1⟩, [⟨1⟩, ⟨0⟩], 0, true⟩ _ 0 ⟨1⟩ (le_refl _) rfl rfl
    (le_refl _) hreset rfl

/-- C3, amended. A record stamped `vs = L + 1` with `L >= 0` is skipped at
every raster level `>= L + 2`: in every build, `lqr_cursor_reset` never
returns with `now` on it, `lqr_cursor_next` and `lqr_cursor_prev` never move
`now` onto it, and `lqr_cursor_right` and `lqr_cursor_left` never return
it. -/
theorem seam_commit_invisible (dbg : Bool) (L : Int) (c c' : LqrCursor) (i : Nat)
    (d : LqrData) (hL : 0 ≤ L) (hi : c.map[i]? = some d) (hd : d.vs = L + 1)
    (hlev : L + 2 ≤ c.o.level) :
    (lqr_cursor_reset dbg c = .ok c' → c'.now ≠ (i : Int)) ∧
    (c.now ≠ (i : Int) → lqr_cursor_next dbg c = .ok c' → c'.now ≠ (i : Int)) ∧
    (c.now ≠ (i : Int) → lqr_cursor_prev dbg c = .ok c' → c'.now ≠ (i : Int)) ∧
    (∀ p, lqr_cursor_right dbg c = .ok (p, c') → p ≠ (i : Int)) ∧
    (∀ p, lqr_cursor_left dbg c = .ok (p, c') → p ≠ (i : Int)) := by
  have hlen : i < c.map.length := by
    by_contra hge
    rw [List.getElem?_eq_none (by omega)] at hi
    cases hi
  have hhid : visibleAt c.o.level c.map (i : Int) = false :=
    (hidden_iff _ _ i hlen).2 ⟨d, hi, by omega, by omega⟩
  have key : ∀ q : Int, visibleAt c.o.level c.map q = true → q ≠ (i : Int) := by
    intro q hq hqi
    rw [hqi, hhid] at hq
    cases hq
  refine ⟨?_, ?_, ?_, ?_, ?_⟩
  · intro h
    obtain ⟨q, rfl, hq, _⟩ := reset_ok h
    exact key q hq
  · intro hnow h
    rcases next_ok_cases h with ⟨_, _, rfl⟩ | ⟨_, q, hq, rfl⟩
    · exact hnow
    · exact key q (walk_forward_ok hq).2.2.1
  · intro hnow h
    rcases prev_ok_cases h with ⟨_, _, rfl⟩ | ⟨_, q, hq, rfl⟩
    · exact hnow
    · exact key q (walk_backward_ok hq).2.2.1
  · intro p h
    exact key p (walk_forward_ok (right_ok h).2).2.2.1
  · intro p h
    exact key p (walk_backward_ok (left_ok h).2).2.2.1

/-- Witness for the amended C3 on the sample raster (`L = 0`, level 2): the
record at offset 1 carries the stamp 1, and `lqr_cursor_next` from offset 0
steps over it to offset 2. -/
theorem seam_commit_invisible_witness :
    (0 : Int) ≤ 0 ∧ sampleMap[1]? = some ⟨0 + 1⟩ ∧ (0 : Int) + 2 ≤ sampleRaster.level ∧
      lqr_cursor_next false (sampleCursor 1 1 0) = .ok (sampleCursor 2 1 2) ∧
      (sampleCursor 2 1 2).now ≠ ((1 : Nat) : Int) :=
  have h2 : lqr_cursor_next false (sampleCursor 1 1 0) = .ok (sampleCursor 2 1 2) := by
    simp [lqr_cursor_next, walk_forward, skip_forward, skipped, sampleCursor, sampleRaster,
      sampleMap]
  ⟨le_refl _, by decide, by decide, h2,
    (seam_commit_invisible false 0 (sampleCursor 1 1 0) (sampleCursor 2 1 2) 1 ⟨0 + 1⟩
      (le_refl _) (by decide) rfl (by decide)).2.1 (by decide) h2⟩

/-- C6. End-of-traversal no-op: for every cursor, whatever its grid and its
position in it, `lqr_cursor_next` called with `x == w` and `y == h` and
`lqr_cursor_prev` called with `x == 1` and `y == 1` return the cursor
unchanged; the result does not depend on the grid, so no record is read and
the call cannot fail. (In a debug build `lqr_cursor_next` first asserts the
`initialized` flag that `lqr_cursor_create` sets.) -/
theorem end_of_traversal_noop (dbg : Bool) (c : LqrCursor) (m : List LqrData) (p : Int) :
    (c.x = c.o.w → c.y = c.o.h → (dbg = true → c.initialized = true) →
      lqr_cursor_next dbg { c with map := m, now := p } = .ok { c with map := m, now := p }) ∧
    (c.x = 1 → c.y = 1 →
      lqr_cursor_prev dbg { c with map := m, now := p } = .ok { c with map := m, now := p }) := by
  constructor
  · intro hx hy hinit
    unfold lqr_cursor_next
    have hnf : (dbg && !c.initialized) = false := by
      cases hd : dbg
      · rfl
      · simp [hinit hd]
    simp [hnf, hx, hy]
  · intro hx hy
    unfold lqr_cursor_prev
    simp [hx, hy]

/-- Witness for C6: at the last logical position of the sample raster, with
an empty grid and a position outside it, `lqr_cursor_next` still returns the
cursor unchanged, and so does `lqr_cursor_prev` at the first position. -/
theorem end_of_traversal_noop_witness :
    lqr_cursor_next true { sampleCursor 2 2 5 with map := [], now := -7 } =
        .ok { sampleCursor 2 2 5 with map := [], now := -7 } ∧
      lqr_cursor_prev true { sampleCursor 1 1 0 with map := [], now := -7 } =
        .ok { sampleCursor 1 1 0 with map := [], now := -7 } :=
  ⟨(end_of_traversal_noop true (sampleCursor 2 2 5) [] (-7)).1 rfl rfl (fun _ => rfl),
   (end_of_traversal_noop true (sampleCursor 1 1 0) [] (-7)).2 rfl rfl⟩

/-- C9. `lqr_cursor_prev` behaves opposite to `lqr_cursor_next`. For every
cursor satisfying the invariant: if it is not at the last logical position
and a visible record lies after `now`, then `lqr_cursor_next` returns and
`lqr_cursor_prev` applied to its result returns the original cursor (same
`x`, `y`, `now`); if it is not at `(1,1)` and a visible record lies before
`now`, then `lqr_cursor_prev` returns and `lqr_cursor_next` applied to its
result returns the original cursor. This holds in the build without
`__LQR_DEBUG__`, and in a debug build for an initialised cursor whose grid
has at most `w0 * h0` records, that product fitting in a `gint` (the bound
of the assertion is the 32-bit product). -/
theorem prev_opposite_to_next (dbg : Bool) (c : LqrCursor) (hinv : Inv c)
    (hdbg : dbg = true → c.initialized = true ∧ GridFits c) :
    (¬ (c.x = c.o.w ∧ c.y = c.o.h) →
      (∃ q, c.now < q ∧ visibleAt c.o.level c.map q = true) →
      ∃ c1, lqr_cursor_next dbg c = .ok c1 ∧ lqr_cursor_prev dbg c1 = .ok c) ∧
    (¬ (c.x = 1 ∧ c.y = 1) →
      (∃ q, q < c.now ∧ visibleAt c.o.level c.map q = true) →
      ∃ c1, lqr_cursor_prev dbg c = .ok c1 ∧ lqr_cursor_next dbg c1 = .ok c) := by
  obtain ⟨hx1, hx2, hy1, hy2, hnow⟩ := hinv
  have hnb := visibleAt_inBounds hnow
  constructor
  · rintro hend ⟨q, hq, hqv⟩
    have hqb := visibleAt_inBounds hqv
    obtain ⟨q', h1, _, _, _, _⟩ :=
      walk_forward_finds dbg (gint_mul c.o.w0 c.o.h0) c.o.level c.map c.now q (by omega) hq hqv
        (fun hd => by have := gridFits_bound (hdbg hd).2; omega)
    have hback := walk_backward_of_forward dbg h1 hnow
    refine ⟨_, by rw [next_eq_walk dbg c (fun hd => (hdbg hd).1) hend, h1]; rfl, ?_⟩
    obtain ⟨x, y, o, map, now, init⟩ := c
    simp only at hx1 hx2 hy1 hy2 hend hback ⊢
    by_cases hx : x = o.w
    · have hy : ¬ y = o.h := fun hy => hend ⟨hx, hy⟩
      rw [prev_eq_walk]
      · simp [hx, hback]
      · simp only [hx, if_true]; omega
    · rw [prev_eq_walk]
      · have hx' : ¬ x + 1 = 1 := by omega
        simp [hx, hx', hback]
      · simp only [hx, if_false]; omega
  · rintro hend ⟨q, hq, hqv⟩
    have hqb := visibleAt_inBounds hqv
    obtain ⟨q', h1, _, _, _, _⟩ :=
      walk_backward_finds dbg c.o.level c.map c.now q (by omega) hq hqv
    have hfwd := walk_forward_of_backward dbg (gint_mul c.o.w0 c.o.h0) h1 hnow
      (fun hd => by have := gridFits_bound (hdbg hd).2; omega)
    refine ⟨_, by rw [prev_eq_walk dbg c hend, h1]; rfl, ?_⟩
    obtain ⟨x, y, o, map, now, init⟩ := c
    simp only at hx1 hx2 hy1 hy2 hend hfwd hdbg ⊢
    by_cases hx : x = 1
    · have hy : ¬ y = 1 := fun hy => hend ⟨hx, hy⟩
      rw [next_eq_walk]
      · have hy' : ¬ y - 1 = o.h := by omega
        simp [hx, hfwd]
      · exact fun hd => (hdbg hd).1
      · simp only [hx, if_true]; omega
    · rw [next_eq_walk]
      · have hx' : ¬ x - 1 = o.w := by omega
        simp [hx, hx', hfwd]
      · exact fun hd => (hdbg hd).1
      · simp only [hx, if_false]; omega

/-- Witness for C9 on the sample raster, in a debug build: from the end of the
first visible row, next then prev, and prev then next, both come back. -/
theorem prev_opposite_to_next_witness :
    Inv (sampleCursor 2 1 2) ∧
      (∃ c1, lqr_cursor_next true (sampleCursor 2 1 2) = .ok c1 ∧
        lqr_cursor_prev true c1 = .ok (sampleCursor 2 1 2)) ∧
      (∃ c1, lqr_cursor_prev true (sampleCursor 2 1 2) = .ok c1 ∧
        lqr_cursor_next true c1 = .ok (sampleCursor 2 1 2)) :=
  ⟨by decide,
   (prev_opposite_to_next true (sampleCursor 2 1 2) (by decide)
      (fun _ => ⟨rfl, by decide⟩)).1 (by decide) ⟨4, by decide, by decide⟩,
   (prev_opposite_to_next true (sampleCursor 2 1 2) (by decide)
      (fun _ => ⟨rfl, by decide⟩)).2 (by decide) ⟨0, by decide, by decide⟩⟩

/-- C4. Row-major traversal of the visible image. On a grid with `w >= 1`,
`h >= 1` that holds exactly `w * h` visible records, for every `k < w * h`
the cursor obtained by `lqr_cursor_reset` followed by `k` calls of
`lqr_cursor_next` has `x = k mod w + 1`, `y = k div w + 1` and `now` on the
`(k+1)`-th visible record in storage order (a visible record with exactly `k`
visible records before it). Hence every visible record is visited, and the
visited offsets increase strictly with `k`. This holds in the build without
`__LQR_DEBUG__`, and in a debug build for an initialised cursor whose grid
has at most `w0 * h0` records, that product fitting in a `gint`, and a
visible record among its first `w0`. -/
theorem row_major_traversal (dbg : Bool) (c : LqrCursor) (hw : 1 ≤ c.o.w) (_hh : 1 ≤ c.o.h)
    (hcount : (countVisible c.o.level c.map c.map.length : Int) = c.o.w * c.o.h)
    (hdbg : dbg = true → c.initialized = true ∧ GridFits c ∧
      ∃ q, q < c.o.w0 ∧ visibleAt c.o.level c.map q = true) :
    (∀ k : Nat, (k : Int) < c.o.w * c.o.h →
      ∃ n : Nat,
        traverse dbg c k =
          .ok { c with x := (k : Int) % c.o.w + 1, y := (k : Int) / c.o.w + 1,
                       now := (n : Int) } ∧
        visibleAt c.o.level c.map (n : Int) = true ∧
        countVisible c.o.level c.map n = k) ∧
    (∀ i : Nat, visibleAt c.o.level c.map (i : Int) = true →
      ∃ k : Nat, (k : Int) < c.o.w * c.o.h ∧
        ∃ c', traverse dbg c k = .ok c' ∧ c'.now = (i : Int)) ∧
    (∀ (k1 k2 : Nat) (c1 c2 : LqrCursor), k1 < k2 → (k2 : Int) < c.o.w * c.o.h →
      traverse dbg c k1 = .ok c1 → traverse dbg c k2 = .ok c2 → c1.now < c2.now) := by
  have hpos := traverse_position dbg c hw hcount hdbg
  refine ⟨hpos, ?_, ?_⟩
  · intro i hi
    have hib := visibleAt_inBounds hi
    have hsucc := countVisible_succ_of_visible c.o.level c.map hi
    have hle := countVisible_mono c.o.level c.map (by omega : i + 1 ≤ c.map.length)
    have hk : ((countVisible c.o.level c.map i : Nat) : Int) < c.o.w * c.o.h := by omega
    obtain ⟨n, ht, hv, hc⟩ := hpos _ hk
    refine ⟨_, hk, _, ht, ?_⟩
    show (n : Int) = (i : Int)
    have hni : n = i := by
      rcases Nat.lt_trichotomy n i with hlt | heq | hgt
      · have h1 := countVisible_succ_of_visible c.o.level c.map hv
        have h2 := countVisible_mono c.o.level c.map (by omega : n + 1 ≤ i)
        omega
      · exact heq
      · have h2 := countVisible_mono c.o.level c.map (by omega : i + 1 ≤ n)
        omega
    rw [hni]
  · intro k1 k2 c1 c2 hlt hk2 h1 h2
    obtain ⟨n1, ht1, hv1, hc1⟩ := hpos k1 (by omega)
    obtain ⟨n2, ht2, _, hc2⟩ := hpos k2 hk2
    rw [ht1] at h1
    rw [ht2] at h2
    cases h1
    cases h2
    show (n1 : Int) < (n2 : Int)
    by_contra hge
    have := countVisible_mono c.o.level c.map (by omega : n2 ≤ n1)
    omega

/-- Witness for C4 on the sample raster, in a debug build: the hypotheses
hold, and the fourth position of the traversal (`k = 3`) is logical `(2, 2)`
on a visible record that has three visible records before it. -/
theorem row_major_traversal_witness :
    (countVisible sampleRaster.level sampleMap sampleMap.length : Int) =
        sampleRaster.w * sampleRaster.h ∧
      ∃ n : Nat,
        traverse true (sampleCursor 0 0 0) 3 =
          .ok { sampleCursor 0 0 0 with x := ((3 : Nat) : Int) % 2 + 1,
                                        y := ((3 : Nat) : Int) / 2 + 1, now := (n : Int) } ∧
        visibleAt 2 sampleMap (n : Int) = true ∧ countVisible 2 sampleMap n = 3 :=
  ⟨by decide,
   (row_major_traversal true (sampleCursor 0 0 0) (by decide) (by decide) (by decide)
      (fun _ => ⟨rfl, by decide, 0, by decide, by decide⟩)).1 3 (by decide)⟩

/-- C5. `lqr_cursor_right` / `lqr_cursor_left`. For a cursor satisfying the
invariant on a grid of `w0 * h0` records in which every original row holds
exactly `w` visible records, with `now` the `x`-th visible record of its row
`r`: if `x < w`, `lqr_cursor_right` returns the `(x+1)`-th visible record of
row `r`, which is the visible record of least offset after `now`; if
`x > 1`, `lqr_cursor_left` returns the `(x-1)`-th visible record of row `r`,
the visible record of greatest offset before `now`. In both cases the cursor
is returned unchanged. (In a debug build the cursor must be initialised and
the product `w0 * h0` of the assertion must fit in a `gint`.) -/
theorem right_left_neighbours (dbg : Bool) (c : LqrCursor) (w0 h0 w r x i : Nat)
    (_hinv : Inv c) (hgrid : OnRowGrid c w0 h0 w)
    (hx : c.x = (x : Int)) (hnow : c.now = (i : Int))
    (hnth : NthInRow c.o.level c.map w0 r x i)
    (hinit : dbg = true → c.initialized = true)
    (hfits : dbg = true → w0 * h0 < 2147483648) :
    (c.x < c.o.w →
      ∃ j : Nat, lqr_cursor_right dbg c = .ok ((j : Int), c) ∧
        NthInRow c.o.level c.map w0 r (x + 1) j ∧ i < j ∧
        ∀ m : Nat, i < m → m < j → visibleAt c.o.level c.map (m : Int) = false) ∧
    (1 < c.x →
      ∃ j : Nat, lqr_cursor_left dbg c = .ok ((j : Int), c) ∧
        NthInRow c.o.level c.map w0 r (x - 1) j ∧ j < i ∧
        ∀ m : Nat, j < m → m < i → visibleAt c.o.level c.map (m : Int) = false) := by
  have hnf : (dbg && !c.initialized) = false := by
    cases hd : dbg
    · rfl
    · simp [hinit hd]
  have hib := visibleAt_inBounds hnth.2.2.1
  have hr : r < h0 := row_lt_of_mem hnth.1 (by have := hgrid.size; omega)
  constructor
  · intro hlt
    have hxw : x < w := by have := hgrid.w_eq; omega
    obtain ⟨j, e1, e2, e3, e4⟩ :=
      walk_forward_in_row dbg (gint_mul c.o.w0 c.o.h0) c.o.level c.map w0 w r x i
        (hgrid.rows r hr) hnth hxw
        (fun hd => onRowGrid_bound hgrid (hfits hd))
    refine ⟨j, ?_, e2, e3, e4⟩
    unfold lqr_cursor_right
    simp [hnf, hlt, hnow, e1]
  · intro hgt
    have hx1 : 1 < x := by omega
    obtain ⟨j, e1, e2, e3, e4⟩ :=
      walk_backward_in_row dbg c.o.level c.map w0 r x i hnth hx1
    refine ⟨j, ?_, e2, e3, e4⟩
    unfold lqr_cursor_left
    simp [hnf, hgt, hnow, e1]

/-- Witness for C5 on the sample raster, in a debug build: at logical (1,1)
(offset 0) the right neighbour is the second visible record of row 0, and at
logical (2,1) (offset 2) the left neighbour is the first one. -/
theorem right_left_neighbours_witness :
    Inv (sampleCursor 1 1 0) ∧ NthInRow 2 sampleMap 3 0 1 0 ∧
      (∃ j : Nat, lqr_cursor_right true (sampleCursor 1 1 0) =
          .ok ((j : Int), sampleCursor 1 1 0) ∧
        NthInRow 2 sampleMap 3 0 (1 + 1) j ∧ 0 < j ∧
        ∀ m : Nat, 0 < m → m < j → visibleAt 2 sampleMap (m : Int) = false) ∧
      Inv (sampleCursor 2 1 2) ∧ NthInRow 2 sampleMap 3 0 2 2 ∧
      (∃ j : Nat, lqr_cursor_left true (sampleCursor 2 1 2) =
          .ok ((j : Int), sampleCursor 2 1 2) ∧
        NthInRow 2 sampleMap 3 0 (2 - 1) j ∧ j < 2 ∧
        ∀ m : Nat, j < m → m < 2 → visibleAt 2 sampleMap (m : Int) = false) :=
  ⟨by decide, by decide,
   (right_left_neighbours true (sampleCursor 1 1 0) 3 2 2 0 1 0 (by decide)
      (sample_onRowGrid 1 1 0) rfl rfl (by decide) (fun _ => rfl)
      (fun _ => by decide)).1 (by decide),
   by decide, by decide,
   (right_left_neighbours true (sampleCursor 2 1 2) 3 2 2 0 2 2 (by decide)
      (sample_onRowGrid 2 1 2) rfl rfl (by decide) (fun _ => rfl)
      (fun _ => by decide)).2 (by decide)⟩

/-- C10. The bounds assertions of the cursor never fire. On a grid of
`w0 * h0` records in which every original row holds exactly `w >= 1` visible
records (`h = h0 >= 1`), for every cursor consistent with it (`now` is the
`x`-th visible record of row `y`), every operation returns in every build, so
that no assertion fires, no record outside the grid is read, and each loop
terminates: `lqr_cursor_reset` ends at an offset `< w0`; `lqr_cursor_next`
(when not at `x == w`, `y == h`) and `lqr_cursor_right` (when `x < w`) end at
an offset `< w0 * h0`; `lqr_cursor_prev` (when not at `x == 1`, `y == 1`) and
`lqr_cursor_left` (when `x > 1`) end at an offset `>= 0`. (The debug build
also asserts the `initialized` flag set by `lqr_cursor_create`, and the
bound of its assertions is the `gint` product `w0 * h0`, so the number of
records must fit in a `gint`: below 2^31.) -/
theorem debug_bounds_assertions_hold (dbg : Bool) (c : LqrCursor) (w0 h0 w r x i : Nat)
    (hw : 1 ≤ w) (hh0 : 1 ≤ h0) (hgrid : OnRowGrid c w0 h0 w) (hh : c.o.h = (h0 : Int))
    (hx : c.x = (x : Int)) (hy : c.y = (r : Int) + 1) (hnow : c.now = (i : Int))
    (hnth : NthInRow c.o.level c.map w0 r x i)
    (hinit : dbg = true → c.initialized = true)
    (hfits : dbg = true → w0 * h0 < 2147483648) :
    (∃ n : Nat, lqr_cursor_reset dbg c = .ok { c with x := 1, y := 1, now := (n : Int) } ∧
      n < w0) ∧
    (¬ (c.x = c.o.w ∧ c.y = c.o.h) →
      ∃ n : Nat, lqr_cursor_next dbg c =
          .ok { c with x := if c.x = c.o.w then 1 else c.x + 1,
                       y := if c.x = c.o.w then c.y + 1 else c.y, now := (n : Int) } ∧
        n < w0 * h0) ∧
    (c.x < c.o.w →
      ∃ n : Nat, lqr_cursor_right dbg c = .ok ((n : Int), c) ∧ n < w0 * h0) ∧
    (¬ (c.x = 1 ∧ c.y = 1) →
      ∃ n : Nat, lqr_cursor_prev dbg c =
          .ok { c with x := if c.x = 1 then c.o.w else c.x - 1,
                       y := if c.x = 1 then c.y - 1 else c.y, now := (n : Int) }) ∧
    (1 < c.x → ∃ n : Nat, lqr_cursor_left dbg c = .ok ((n : Int), c)) := by
  have hnf : (dbg && !c.initialized) = false := by
    cases hd : dbg
    · rfl
    · simp [hinit hd]
  have hvis := hnth.2.2.1
  have hib := visibleAt_inBounds hvis
  have hsize := hgrid.size
  have hr : r < h0 := row_lt_of_mem hnth.1 (by omega)
  have hbound : dbg = true → (c.map.length : Int) ≤ gint_mul c.o.w0 c.o.h0 :=
    fun hd => onRowGrid_bound hgrid (hfits hd)
  have hrow := hgrid.rows r hr
  have hxw : x ≤ w := by
    have h1 := countVisible_succ_of_visible c.o.level c.map hvis
    have h2 := countVisible_mono c.o.level c.map (by have := hnth.2.1; omega :
      i + 1 ≤ (r + 1) * w0)
    have h3 := hnth.2.2.2
    omega
  have hx1 : 1 ≤ x := by
    have h2 := countVisible_mono c.o.level c.map hnth.1
    have h3 := hnth.2.2.2
    omega
  have hweq := hgrid.w_eq
  refine ⟨?_, ?_, ?_, ?_, ?_⟩
  · have hrow0 := hgrid.rows 0 (by omega)
    have hlt : countVisible c.o.level c.map (0 * w0) <
        countVisible c.o.level c.map ((0 + 1) * w0) := by omega
    obtain ⟨j0, _, hj2, hjv⟩ := countVisible_exists c.o.level c.map hlt
    obtain ⟨q', e1, e2, e3, _, _⟩ := reset_finds dbg c j0 hjv
      (fun hd => ⟨hinit hd, by rw [hgrid.w0_eq]; omega⟩)
    obtain ⟨n, rfl⟩ := Int.eq_ofNat_of_zero_le e2
    exact ⟨n, e1, by omega⟩
  · intro hend
    rw [next_eq_walk dbg c hinit hend, hnow]
    by_cases hlt : x < w
    · obtain ⟨j, e1, e2, _, _⟩ :=
        walk_forward_in_row dbg (gint_mul c.o.w0 c.o.h0) c.o.level c.map w0 w r x i hrow hnth hlt
          hbound
      have hjb := visibleAt_inBounds e2.2.2.1
      exact ⟨j, by rw [e1]; rfl, by omega⟩
    · have hxeq : c.x = c.o.w := by omega
      have hyne : ¬ c.y = c.o.h := fun hy' => hend ⟨hxeq, hy'⟩
      have hr1 : r + 1 < h0 := by omega
      obtain ⟨j, e1, e2⟩ :=
        walk_forward_to_next_row dbg (gint_mul c.o.w0 c.o.h0) c.o.level c.map w0 w r i hw
          hnth.2.1 (hgrid.rows (r + 1) hr1) hbound
      exact ⟨j, by rw [e1]; rfl, by omega⟩
  · intro hlt
    have hlt' : x < w := by omega
    obtain ⟨j, e1, e2, _, _⟩ :=
      walk_forward_in_row dbg (gint_mul c.o.w0 c.o.h0) c.o.level c.map w0 w r x i hrow hnth hlt'
        hbound
    have hjb := visibleAt_inBounds e2.2.2.1
    refine ⟨j, ?_, by omega⟩
    unfold lqr_cursor_right
    simp [hnf, hlt, hnow, e1]
  · intro hbeg
    rw [prev_eq_walk dbg c hbeg, hnow]
    by_cases hgt : 1 < x
    · obtain ⟨j, e1, _⟩ := walk_backward_in_row dbg c.o.level c.map w0 r x i hnth hgt
      exact ⟨j, by rw [e1]; rfl⟩
    · have hxeq : c.x = 1 := by omega
      have hyne : ¬ c.y = 1 := fun hy' => hbeg ⟨hxeq, hy'⟩
      obtain ⟨r', rfl⟩ : ∃ r', r = r' + 1 := ⟨r - 1, by omega⟩
      obtain ⟨j, e1⟩ :=
        walk_backward_to_prev_row dbg c.o.level c.map w0 w r' i hw hnth.1 (by omega)
          (hgrid.rows r' (by omega))
      exact ⟨j, by rw [e1]; rfl⟩
  · intro hgt
    have hgt' : 1 < x := by omega
    obtain ⟨j, e1, _⟩ := walk_backward_in_row dbg c.o.level c.map w0 r x i hnth hgt'
    refine ⟨j, ?_⟩
    unfold lqr_cursor_left
    simp [hnf, hgt, hnow, e1]

/-- Witness for C10 on the sample raster, in a debug build, with the cursor
at the end of the first visible row (logical (2,1), offset 2): all five
operations return without an assertion firing. -/
theorem debug_bounds_assertions_hold_witness :
    NthInRow 2 sampleMap 3 0 2 2 ∧
      (∃ n : Nat, lqr_cursor_reset true (sampleCursor 2 1 2) =
          .ok { sampleCursor 2 1 2 with x := 1, y := 1, now := (n : Int) } ∧ n < 3) ∧
      (∃ n : Nat, lqr_cursor_next true (sampleCursor 2 1 2) =
          .ok { sampleCursor 2 1 2 with
                  x := if (2 : Int) = 2 then 1 else 2 + 1,
                  y := if (2 : Int) = 2 then 1 + 1 else 1, now := (n : Int) } ∧
        n < 3 * 2) ∧
      (∃ n : Nat, lqr_cursor_prev true (sampleCursor 2 1 2) =
          .ok { sampleCursor 2 1 2 with
                  x := if (2 : Int) = 1 then 2 else 2 - 1,
                  y := if (2 : Int) = 1 then 1 - 1 else 1, now := (n : Int) }) ∧
      (∃ n : Nat, lqr_cursor_left true (sampleCursor 2 1 2) =
          .ok ((n : Int), sampleCursor 2 1 2)) :=
  have t := debug_bounds_assertions_hold true (sampleCursor 2 1 2) 3 2 2 0 2 2
    (by decide) (by decide) (sample_onRowGrid 2 1 2) rfl rfl rfl rfl (by decide)
    (fun _ => rfl) (fun _ => by decide)
  ⟨by decide, t.1, t.2.1 (by decide), t.2.2.2.1 (by decide), t.2.2.2.2 (by decide)⟩

/-! ## The stages of `render` -/

theorem all_ite (c : Prop) [Decidable c] (l1 l2 : List Call) (f : Call → Bool) :
    (if c then l1 else l2).all f = if c then l1.all f else l2.all f := by
  split <;> rfl

theorem render_prepare_no_engine (a : Answers) (vals : PlugInVals) (layer_ID : Int) :
    ∀ e ∈ (render_prepare a vals layer_ID).2, e.isEngine = false := by
  have hall : (render_prepare a vals layer_ID).2.all (fun e => !e.isEngine) = true := by
    simp only [render_prepare, List.all_append, all_ite, List.all_cons, List.all_nil,
      Call.isEngine, Bool.not_false, Bool.and_self, ite_self]
  intro e he
  have := List.all_eq_true.mp hall e he
  simpa using this

theorem render_finish_spec (a : Answers) (vals : PlugInVals) (work_ID : Int)
    (t : List Call) :
    (render_finish a vals work_ID t).1 = true →
      ∀ tg id, Call.lqr_external_writeimage tg id ∈ (render_finish a vals work_ID t).2 →
        Call.lqr_external_writeimage tg id ∈ t ∨ a.write tg = true := by
  intro hres tg id hmem
  unfold render_finish at hres hmem
  cases tg <;> cases h1 : vals.resize_aux_layers <;> cases h2 : a.write_pres <;>
    cases h3 : a.write_disc <;> by_cases hp0 : vals.pres_layer_ID = 0 <;>
    by_cases hd0 : vals.disc_layer_ID = 0 <;>
    simp_all [Answers.write]

theorem render_engine_true (a : Answers) (vals : PlugInVals) (work_ID : Int)
    (t : List Call) (h : (render_engine a vals work_ID t).1 = true) :
    a.raster_new = true ∧ a.raster_resize = true ∧
      ∀ tg id, Call.lqr_external_writeimage tg id ∈ (render_engine a vals work_ID t).2 →
        Call.lqr_external_writeimage tg id ∈ t ∨ a.write tg = true := by
  unfold render_engine at h ⊢
  cases h1 : a.raster_new
  · simp [h1] at h
  · cases h2 : a.raster_resize
    · simp [h1, h2] at h
    · cases h3 : a.write_layer
      · simp [h1, h2, h3] at h
      · simp only [h1, h2, h3, Bool.not_true, Bool.false_eq_true, if_false] at h ⊢
        refine ⟨trivial, trivial, ?_⟩
        intro tg id hmem
        rcases render_finish_spec a vals work_ID _ h tg id hmem with hin | hw
        · cases hc : vals.resize_canvas <;> simp [hc] at hin <;>
            rcases hin with hin | ⟨rfl, rfl⟩
          · exact Or.inl hin
          · exact Or.inr (by simp [Answers.write, h3])
          · exact Or.inl hin
          · exact Or.inr (by simp [Answers.write, h3])
        · exact Or.inr hw

theorem render_engine_no_raster (a : Answers) (vals : PlugInVals) (work_ID : Int)
    (t : List Call) (h : a.raster_new = false) :
    render_engine a vals work_ID t =
      (false, t ++ [.lqr_raster_new work_ID] ++ [.g_message .not_enough_memory]) := by
  unfold render_engine
  simp [h]

theorem render_engine_no_resize (a : Answers) (vals : PlugInVals) (work_ID : Int)
    (t : List Call) (h1 : a.raster_new = true) (h2 : a.raster_resize = false) :
    render_engine a vals work_ID t =
      (false, t ++ [.lqr_raster_new work_ID]
        ++ [.lqr_raster_resize vals.new_width vals.new_height]
        ++ [.g_message .not_enough_memory]) := by
  unfold render_engine
  simp [h1, h2]

theorem render_of_invalid (a : Answers) (layer_ID_val : Int) (vals : PlugInVals)
    (h : ¬ LayersValid a vals) :
    (render a layer_ID_val vals).1 = false ∧
      ∀ e ∈ (render a layer_ID_val vals).2, e.isEngine = false := by
  unfold LayersValid at h
  unfold render
  cases h1 : a.layer_is_layer <;> cases h2 : a.pres_is_layer <;>
    cases h3 : a.disc_is_layer <;> by_cases hp0 : vals.pres_layer_ID = 0 <;>
    by_cases hd0 : vals.disc_layer_ID = 0 <;> by_cases h0 : layer_ID_val = 0 <;>
    simp_all [Call.isEngine]

theorem render_of_valid (a : Answers) (layer_ID_val : Int) (vals : PlugInVals)
    (h : LayersValid a vals) :
    ∃ (t : List Call) (work_ID : Int), (∀ e ∈ t, e.isEngine = false) ∧
      render a layer_ID_val vals = render_engine a vals work_ID t := by
  obtain ⟨h1, h2, h3⟩ := h
  have hp : (decide (vals.pres_layer_ID ≠ 0) && !a.pres_is_layer) = false := by
    by_cases hp0 : vals.pres_layer_ID = 0
    · simp [hp0]
    · simp [h2 hp0]
  have hd : (decide (vals.disc_layer_ID ≠ 0) && !a.disc_is_layer) = false := by
    by_cases hd0 : vals.disc_layer_ID = 0
    · simp [hd0]
    · simp [h3 hd0]
  have heq : render a layer_ID_val vals =
      render_engine a vals
        (render_prepare a vals (if layer_ID_val ≠ 0 then layer_ID_val else a.active_layer)).1
        ((((if layer_ID_val ≠ 0 then [] else [Call.gimp_image_get_active_layer]) ++
              [Call.gimp_drawable_is_layer
                (if layer_ID_val ≠ 0 then layer_ID_val else a.active_layer)] ++
            if vals.pres_layer_ID ≠ 0 then [Call.gimp_drawable_is_layer vals.pres_layer_ID]
            else []) ++
          if vals.disc_layer_ID ≠ 0 then [Call.gimp_drawable_is_layer vals.disc_layer_ID]
          else []) ++
        (render_prepare a vals
          (if layer_ID_val ≠ 0 then layer_ID_val else a.active_layer)).2) := by
    unfold render
    simp only [h1, hp, hd, Bool.not_true, Bool.false_eq_true, if_false]
  refine ⟨_, _, ?_, heq⟩
  intro e he
  rcases List.mem_append.mp he with he | he
  · have hall : ((((if layer_ID_val ≠ 0 then [] else [Call.gimp_image_get_active_layer]) ++
              [Call.gimp_drawable_is_layer
                (if layer_ID_val ≠ 0 then layer_ID_val else a.active_layer)] ++
            if vals.pres_layer_ID ≠ 0 then [Call.gimp_drawable_is_layer vals.pres_layer_ID]
            else []) ++
          if vals.disc_layer_ID ≠ 0 then [Call.gimp_drawable_is_layer vals.disc_layer_ID]
          else []).all (fun e => !e.isEngine)) = true := by
      simp only [List.all_append, all_ite, List.all_cons, List.all_nil, Call.isEngine,
        Bool.not_false, Bool.and_self, ite_self]
    have := List.all_eq_true.mp hall e he
    simpa using this
  · exact render_prepare_no_engine a vals _ e he

/-- C7. `render` rejects invalid references before doing anything: if the
selected layer is not a valid layer, or `pres_layer_ID != 0` and it is not a
valid layer, or `disc_layer_ID != 0` and it is not a valid layer, then
`render` returns `FALSE`, and none of the calls it made is a call into the
engine (`lqr_raster_new`, `lqr_raster_resize`, `lqr_external_writeimage`) or
a call that changes the host (layer copy / add, mask removal, layer or image
resize, ...). -/
theorem render_rejects_invalid_references (a : Answers) (layer_ID_val : Int)
    (vals : PlugInVals)
    (h : a.layer_is_layer = false ∨
      (vals.pres_layer_ID ≠ 0 ∧ a.pres_is_layer = false) ∨
      (vals.disc_layer_ID ≠ 0 ∧ a.disc_is_layer = false)) :
    (render a layer_ID_val vals).1 = false ∧
      ∀ e ∈ (render a layer_ID_val vals).2, e.isEngine = false ∧ e.mutatesHost = false := by
  unfold render
  cases h1 : a.layer_is_layer <;> cases h2 : a.pres_is_layer <;>
    cases h3 : a.disc_is_layer <;> by_cases hp0 : vals.pres_layer_ID = 0 <;>
    by_cases hd0 : vals.disc_layer_ID = 0 <;> by_cases h0 : layer_ID_val = 0 <;>
    simp_all [Call.isEngine, Call.mutatesHost]

/-- Witness for C7: with the sample inputs and a preservation layer that is
no longer valid, `render` returns `FALSE` after two validity queries and one
message. -/
theorem render_rejects_invalid_references_witness :
    render { sampleAnswers with pres_is_layer := false } 7 sampleVals =
        (false, [.gimp_drawable_is_layer 7, .gimp_drawable_is_layer 8,
                 .g_message .pres_invalid]) ∧
      ((render { sampleAnswers with pres_is_layer := false } 7 sampleVals).1 = false ∧
        ∀ e ∈ (render { sampleAnswers with pres_is_layer := false } 7 sampleVals).2,
          e.isEngine = false ∧ e.mutatesHost = false) :=
  ⟨by decide,
   render_rejects_invalid_references { sampleAnswers with pres_is_layer := false } 7
     sampleVals (Or.inr (Or.inl ⟨by decide, rfl⟩))⟩

/-- C8. `render` propagates engine failure as failure of the whole
operation. It returns `TRUE` only if the layer checks passed,
`lqr_raster_new` returned non-NULL, `lqr_raster_resize` returned `TRUE` and
every `lqr_external_writeimage` call made returned `TRUE`. If
`lqr_raster_new` returns NULL, `lqr_raster_resize` is never called; if the
construction or the resize fails, `lqr_external_writeimage` is never called
and `render` returns `FALSE`. -/
theorem render_propagates_engine_failure (a : Answers) (layer_ID_val : Int)
    (vals : PlugInVals) :
    ((render a layer_ID_val vals).1 = true →
      LayersValid a vals ∧ a.raster_new = true ∧ a.raster_resize = true ∧
        ∀ tg id, Call.lqr_external_writeimage tg id ∈ (render a layer_ID_val vals).2 →
          a.write tg = true) ∧
    (a.raster_new = false →
      ∀ w h, Call.lqr_raster_resize w h ∉ (render a layer_ID_val vals).2) ∧
    (a.raster_new = false ∨ a.raster_resize = false →
      (render a layer_ID_val vals).1 = false ∧
        ∀ tg id, Call.lqr_external_writeimage tg id ∉ (render a layer_ID_val vals).2) := by
  by_cases hv : LayersValid a vals
  · obtain ⟨t, work_ID, ht, heq⟩ := render_of_valid a layer_ID_val vals hv
    rw [heq]
    have hnw : ∀ tg id, Call.lqr_external_writeimage tg id ∉ t := fun tg id hin => by
      have := ht _ hin
      simp [Call.isEngine] at this
    have hnr : ∀ w h, Call.lqr_raster_resize w h ∉ t := fun w h hin => by
      have := ht _ hin
      simp [Call.isEngine] at this
    refine ⟨?_, ?_, ?_⟩
    · intro hres
      obtain ⟨e1, e2, e3⟩ := render_engine_true a vals work_ID t hres
      refine ⟨hv, e1, e2, ?_⟩
      intro tg id hmem
      rcases e3 tg id hmem with hin | hw
      · exact absurd hin (hnw tg id)
      · exact hw
    · intro hrn w h hmem
      rw [render_engine_no_raster a vals work_ID t hrn] at hmem
      simp only [List.mem_append, List.mem_singleton] at hmem
      rcases hmem with (hin | hne) | hne
      · exact hnr w h hin
      · cases hne
      · cases hne
    · intro hfail
      cases hrn : a.raster_new
      · rw [render_engine_no_raster a vals work_ID t hrn]
        refine ⟨rfl, ?_⟩
        intro tg id hmem
        simp only [List.mem_append, List.mem_singleton] at hmem
        rcases hmem with (hin | hne) | hne
        · exact hnw tg id hin
        · cases hne
        · cases hne
      · have hrr : a.raster_resize = false := by
          rcases hfail with h | h
          · rw [hrn] at h; cases h
          · exact h
        rw [render_engine_no_resize a vals work_ID t hrn hrr]
        refine ⟨rfl, ?_⟩
        intro tg id hmem
        simp only [List.mem_append, List.mem_singleton] at hmem
        rcases hmem with ((hin | hne) | hne) | hne
        · exact hnw tg id hin
        · cases hne
        · cases hne
        · cases hne
  · obtain ⟨hres, htr⟩ := render_of_invalid a layer_ID_val vals hv
    refine ⟨?_, ?_, ?_⟩
    · intro htrue
      rw [hres] at htrue
      cases htrue
    · intro _ w h hmem
      have := htr _ hmem
      simp [Call.isEngine] at this
    · intro _
      refine ⟨hres, ?_⟩
      intro tg id hmem
      have := htr _ hmem
      simp [Call.isEngine] at this

/-- Witness for C8: with the sample inputs and answers `render` returns
`TRUE` after writing the layer and the preservation layer; when
`lqr_raster_resize` fails instead, it returns `FALSE` and the last calls are
`lqr_raster_new`, `lqr_raster_resize` and the message. -/
theorem render_propagates_engine_failure_witness :
    (render sampleAnswers 7 sampleVals).1 = true ∧
      (LayersValid sampleAnswers sampleVals ∧ sampleAnswers.raster_new = true ∧
        sampleAnswers.raster_resize = true ∧
        ∀ tg id, Call.lqr_external_writeimage tg id ∈ (render sampleAnswers 7 sampleVals).2 →
          sampleAnswers.write tg = true) ∧
      Call.lqr_external_writeimage .pres 8 ∈ (render sampleAnswers 7 sampleVals).2 ∧
      ((render { sampleAnswers with raster_resize := false } 7 sampleVals).1 = false ∧
        ∀ tg id, Call.lqr_external_writeimage tg id ∉
          (render { sampleAnswers with raster_resize := false } 7 sampleVals).2) :=
  ⟨by decide,
   (render_propagates_engine_failure sampleAnswers 7 sampleVals).1 (by decide),
   by decide,
   (render_propagates_engine_failure { sampleAnswers with raster_resize := false } 7
      sampleVals).2.2 (Or.inr rfl)⟩

end Lqr
